import Mathlib

/-!
# Bulk formatter of go-sfdc: a shallow embedding

The development embeds `bulk/formatter.go` (`NewFormatter`, `Formatter.Add`,
`Formatter.Reader`) together with the part of Go's `encoding/csv` writer that the
formatter drives (`Writer.Write`, `fieldNeedsQuotes`, `validDelim`, `Writer.Flush`).
The error decoder of package `sfdc` (`error.go`) is not among the sources; namespace
`Sfdc` holds its description after the spec, next to the cases of `error_test.go`.

Conventions of the embedding:
* a Go `string` is a Lean `String`, i.e. a sequence of Unicode scalar values (the
  embedding covers the valid UTF-8 strings); byte loops of the CSV writer that only
  look for ASCII bytes are loops over the characters;
* a Go `rune` used as delimiter is a Lean `Char`, so `utf8.ValidRune` holds of it;
* a nilable pointer or interface, and the slice `records` that `Add` compares with
  nil, is an `Option`; the slice `fields`, of which only the length and the elements
  are used, is a `List` (nil and empty coincide);
* the Go `error` result is the `Except String` monad; a run-time panic of `Add` is a
  separate outcome, which carries the state that a caller finds who recovers from it;
* the pair of `bufio.Writer` inside `csv.Writer` and the `strings.Builder` behind it is
  the pair of fields `buf` (bytes written and not flushed) and `sb` (builder content).
-/

namespace Bulk

/-! ## Job configuration -/

/-- Modelled from the spec: the line-ending setting of a job. The type is declared
outside `formatter.go`; the spec names the two recognised values and allows others,
which are collected in `Unspecified`. -/
inductive LineEnding where
  | LineFeed
  | CarriageReturnLinefeed
  | Unspecified
  deriving DecidableEq, Repr

/-- Modelled from the spec: the `WriteResponse` part of a job, of which the formatter
reads the field `LineEnding` only. -/
structure WriteResponse where
  LineEnding : LineEnding
  deriving DecidableEq, Repr

/-- Modelled from the spec: the job configuration, declared outside `formatter.go`.
The formatter uses `job.delimiter()`, a single character, and
`job.WriteResponse.LineEnding`. -/
structure Job where
  delimiter : Char
  WriteResponse : WriteResponse
  deriving DecidableEq, Repr

/-! ## Records -/

/-- A value of type `interface{}` stored in the field map of a record: the nil
interface, a string, a boolean, an integer of any width, or a value of any other
dynamic type, which is represented by the text that `%v` prints for it. -/
inductive Value where
  | nil
  | str (s : String)
  | bool (b : Bool)
  | int (n : Int)
  | other (rendered : String)
  deriving DecidableEq, Repr

/-- A record as seen through the interface `Record`: the map returned by `Fields()`
(a lookup yields `none` for an absent key, the comma-ok form of Go) and the result
of `InsertNull()`. -/
structure Record where
  Fields : String → Option Value
  InsertNull : Bool

/-- Decimal numeral of an integer as `%v` prints it: the digits of the absolute
value, after a minus sign for a negative number. -/
def formatInt : Int → String
  | Int.ofNat n => String.mk (Nat.toDigits 10 n)
  | Int.negSucc n => String.mk ('-' :: Nat.toDigits 10 (n + 1))

/-- The text of `fmt.Sprintf("%v", value)` for a non-nil value (`<nil>` for the nil
interface, which `Add` never formats). -/
def sprintfV : Value → String
  | Value.nil => "<nil>"
  | Value.str s => s
  | Value.bool b => if b then "true" else "false"
  | Value.int n => formatInt n
  | Value.other rendered => rendered

/-! ## The CSV writer of `encoding/csv` -/

/-- `unicode.IsSpace`: the White_Space property. -/
def isSpace (r : Char) : Bool :=
  let n := r.toNat
  if n ≤ 0xFF then
    n = 0x09 || n = 0x0A || n = 0x0B || n = 0x0C || n = 0x0D || n = 0x20 || n = 0x85 || n = 0xA0
  else
    n = 0x1680 || (0x2000 ≤ n && n ≤ 0x200A) || n = 0x2028 || n = 0x2029 || n = 0x202F
      || n = 0x205F || n = 0x3000

/-- `validDelim`: the delimiter is not NUL, a quote, a carriage return, a line feed
or the replacement character; `utf8.ValidRune` holds of every `Char`. -/
def validDelim (r : Char) : Bool :=
  r != Char.ofNat 0 && r != '"' && r != '\r' && r != '\n' && r != Char.ofNat 0xFFFD

/-- `Writer.fieldNeedsQuotes`: an empty field is not quoted, the field `\.` is, a
field holding the delimiter, a quote, a carriage return or a line feed is, and
otherwise a field is quoted when its first character is a space character. -/
def fieldNeedsQuotes (comma : Char) (field : List Char) : Bool :=
  if field = [] then false
  else if field = ['\\', '.'] then true
  else if
    (if comma.toNat < 0x80 then
      field.any (fun c => c = '\n' || c = '\r' || c = '"' || c = comma)
    else
      field.contains comma || field.any (fun c => c = '"' || c = '\r' || c = '\n'))
  then true
  else
    match field with
    | [] => false
    | r1 :: _ => isSpace r1

/-- `strings.IndexAny(field, "\"\r\n")`, with the length of the field when there is
no such character (the `i < 0` branch of the caller). -/
def indexSpecial : List Char → Nat
  | [] => 0
  | c :: cs => if c = '"' || c = '\r' || c = '\n' then 0 else indexSpecial cs + 1

/-- The encoding of one special character inside a quoted field. -/
def encodeSpecial (useCRLF : Bool) (c : Char) : List Char :=
  if c = '"' then ['"', '"']
  else if c = '\r' then (if !useCRLF then ['\r'] else [])
  else if c = '\n' then (if useCRLF then ['\r', '\n'] else ['\n'])
  else []

/-- The loop `for len(field) > 0` of `Writer.Write` for a quoted field: copy the
text before the next special character, encode that character, go on with the
rest. Each round of the loop consumes at least one character, so `fuel` rounds
suffice for a field of at most `fuel` characters. -/
def quoteLoop (useCRLF : Bool) : Nat → List Char → List Char
  | 0, _ => []
  | fuel + 1, field =>
    if field.length > 0 then
      let i := indexSpecial field
      let verbatim := field.take i
      match field.drop i with
      | [] => verbatim
      | c :: rest => verbatim ++ encodeSpecial useCRLF c ++ quoteLoop useCRLF fuel rest
    else []

/-- The bytes `Writer.Write` emits for one field. -/
def writeField (comma : Char) (useCRLF : Bool) (field : List Char) : List Char :=
  if !fieldNeedsQuotes comma field then field
  else ['"'] ++ quoteLoop useCRLF field.length field ++ ['"']

/-- The loop `for n, field := range record` of `Writer.Write`: the delimiter before
every field but the first, then the field. -/
def writeFields (comma : Char) (useCRLF : Bool) : Nat → List String → List Char
  | _, [] => []
  | n, field :: rest =>
    (if n > 0 then [comma] else []) ++ writeField comma useCRLF field.data
      ++ writeFields comma useCRLF (n + 1) rest

/-- The line terminator written after a record. -/
def lineTerminator (useCRLF : Bool) : List Char :=
  if useCRLF then ['\r', '\n'] else ['\n']

/-- The state of a `csv.Writer` over a `strings.Builder`: the two public settings,
the bytes held by the buffered writer, and the content of the builder. The
buffered writer of Go holds 4096 bytes and hands the oldest bytes to the builder when
it runs full; the embedding does not bound `buf`, which holds all bytes written since
the last `Flush`. The two agree after every `Flush`, and before one as long as fewer
than 4096 bytes are pending; `sb` followed by `buf` is always the sequence of the
bytes written. -/
structure Writer where
  Comma : Char
  UseCRLF : Bool
  buf : String
  sb : String
  deriving DecidableEq, Repr

/-- The error of `encoding/csv` for an invalid delimiter. -/
def errInvalidDelim : String := "csv: invalid field or comment delimiter"

/-- `Writer.Write`: fails on an invalid delimiter before writing anything; otherwise
buffers the fields and the line terminator. Writes to a `strings.Builder` do not
fail. -/
def Writer.Write (w : Writer) (record : List String) : Except String Writer :=
  if !validDelim w.Comma then Except.error errInvalidDelim
  else
    Except.ok { w with
      buf := w.buf ++ String.mk (writeFields w.Comma w.UseCRLF 0 record
        ++ lineTerminator w.UseCRLF) }

/-- `Writer.Flush`: the buffered bytes go to the builder. -/
def Writer.Flush (w : Writer) : Writer :=
  { w with buf := "", sb := w.sb ++ w.buf }

/-! ## The formatter -/

/-- The `Formatter` of `formatter.go`. The builder `sb` of the Go struct is the one
the writer was created over, so it is the field `sb` of `writer`. -/
structure Formatter where
  job : Job
  fields : List String
  writer : Writer
  deriving DecidableEq, Repr

/-- The content of the builder shared by the formatter and its writer. -/
def Formatter.sb (f : Formatter) : String := f.writer.sb

/-- `NewFormatter`: an error for a nil job or an empty list of fields; otherwise a
writer over a fresh builder, configured from the job, receives the header row. -/
def NewFormatter (job : Option Job) (fields : List String) : Except String Formatter :=
  match job with
  | none => Except.error "bulk formatter: job is required for the formatter"
  | some job =>
    if fields.length = 0 then Except.error "bulk formatter: fields are required"
    else
      let writer : Writer :=
        { Comma := job.delimiter
          UseCRLF := decide (job.WriteResponse.LineEnding = LineEnding.CarriageReturnLinefeed)
          buf := ""
          sb := "" }
      match writer.Write fields with
      | Except.error err => Except.error err
      | Except.ok writer => Except.ok { job := job, fields := fields, writer := writer.Flush }

/-- The inner loop `for idx, field := range f.fields` of `Add`: slot `idx` gets the
default for the record, and then the formatted value when the map holds a non-nil
value under the field name. -/
def fillValues (recFields : String → Option Value) (insertNull : Bool) :
    Nat → List String → List String → List String
  | _, [], values => values
  | idx, field :: rest, values =>
    let values := values.set idx (if insertNull then "#N/A" else "")
    let values :=
      match recFields field with
      | some value => if value ≠ Value.nil then values.set idx (sprintfV value) else values
      | none => values
    fillValues recFields insertNull (idx + 1) rest values

/-- The row `values` that `Add` builds for one record and hands to `Writer.Write`:
`make([]string, len(f.fields))` filled by the inner loop. -/
def rowValues (fields : List String) (record : Record) : List String :=
  fillValues record.Fields record.InsertNull 0 fields (List.replicate fields.length "")

/-- Outcome of the record loop of `Add`, with the state of the writer at its end. -/
inductive LoopResult where
  | done (w : Writer)
  | failed (err : String) (w : Writer)
  | panicked (w : Writer)
  deriving DecidableEq, Repr

/-- The loop `for _, record := range records` of `Add`. A nil interface among the
records makes `record.Fields()` panic, with the rows of the records before it in the
buffer of the writer; an error of `Write` ends the loop. -/
def addLoop (fields : List String) (w : Writer) : List (Option Record) → LoopResult
  | [] => LoopResult.done w
  | none :: _ => LoopResult.panicked w
  | some record :: rest =>
    match w.Write (rowValues fields record) with
    | Except.error err => LoopResult.failed err w
    | Except.ok w => addLoop fields w rest

/-- Outcome of `Add`: normal return without error, return of an error, or panic. Each
carries the state of the formatter after the call; after a panic this is the state a
caller finds that recovers from the panic. -/
inductive AddResult where
  | ok (f : Formatter)
  | error (err : String) (f : Formatter)
  | panic (f : Formatter)
  deriving DecidableEq, Repr

/-- `Formatter.Add`. The parameter `records` is the slice behind the variadic
parameter: `none` is the nil slice. `Flush` is the last statement of the normal path
only: after an error of `Write` and after a panic the rows written so far stay in the
buffer of the writer. -/
def Formatter.Add (f : Formatter) (records : Option (List (Option Record))) : AddResult :=
  match records with
  | none => AddResult.error "bulk formatter: record interface can not be nil" f
  | some records =>
    match addLoop f.fields f.writer records with
    | LoopResult.panicked w => AddResult.panic { f with writer := w }
    | LoopResult.failed err w => AddResult.error err { f with writer := w }
    | LoopResult.done w => AddResult.ok { f with writer := w.Flush }

/-- The slice a variadic parameter receives from a call that lists its arguments
one by one: nil when no argument is given (Go language specification, "Passing
arguments to ... parameters"), a fresh slice of the arguments otherwise. -/
def variadic (args : List (Option Record)) : Option (List (Option Record)) :=
  match args with
  | [] => none
  | _ :: _ => some args

/-- A `strings.Reader`: the text and the current reading index. -/
structure StringsReader where
  s : String
  i : Nat
  deriving DecidableEq, Repr

/-- `Formatter.Reader`: a new reader over the current content of the builder. The
formatter is returned along with the reader to make the effect on it explicit. -/
def Formatter.Reader (f : Formatter) : Formatter × StringsReader :=
  (f, { s := f.sb, i := 0 })

/-! ## Derived descriptions used in the statements -/

/-- The content of one slot after the body of the inner loop of `Add`, from the
result of `InsertNull()` and of the lookup of the field name in `Fields()`. -/
def cellValue (insertNull : Bool) (entry : Option Value) : String :=
  match entry with
  | some value => if value ≠ Value.nil then sprintfV value else (if insertNull then "#N/A" else "")
  | none => if insertNull then "#N/A" else ""

/-- The formatter that `NewFormatter` returns for a job with a valid delimiter: the
settings of the job, an empty buffer, and the header row in the builder. -/
def newFormatterState (job : Job) (fields : List String) : Formatter :=
  { job := job
    fields := fields
    writer :=
      { Comma := job.delimiter
        UseCRLF := decide (job.WriteResponse.LineEnding = LineEnding.CarriageReturnLinefeed)
        buf := ""
        sb := String.mk (writeFields job.delimiter
            (decide (job.WriteResponse.LineEnding = LineEnding.CarriageReturnLinefeed)) 0 fields
          ++ lineTerminator
            (decide (job.WriteResponse.LineEnding = LineEnding.CarriageReturnLinefeed))) } }

/-- The number denoted by a sequence of decimal digits. -/
def decimalValue (digits : List Char) : Nat :=
  digits.foldl (fun acc c => acc * 10 + (c.toNat - 48)) 0

/-- The states a caller can bring a formatter into: the result of a successful
`NewFormatter`, and the state after a call of `Reader` or of `Add` on such a state,
whether `Add` returns without error, returns an error, or panics on a nil record and
the caller recovers. -/
inductive Reachable : Formatter → Prop where
  | new (job : Option Job) (fields : List String) (f : Formatter) :
      NewFormatter job fields = Except.ok f → Reachable f
  | addOk (f : Formatter) (records : Option (List (Option Record))) (f' : Formatter) :
      Reachable f → f.Add records = AddResult.ok f' → Reachable f'
  | addError (f : Formatter) (records : Option (List (Option Record))) (err : String)
      (f' : Formatter) :
      Reachable f → f.Add records = AddResult.error err f' → Reachable f'
  | addPanic (f : Formatter) (records : Option (List (Option Record))) (f' : Formatter) :
      Reachable f → f.Add records = AddResult.panic f' → Reachable f'
  | reader (f : Formatter) : Reachable f → Reachable f.Reader.1

/-- Text of a line-ending setting: `\r\n` for `CarriageReturnLinefeed`, `\n` for
`LineFeed`; any other setting is written like `LineFeed`. -/
def lineEndingText : LineEnding → String
  | LineEnding.CarriageReturnLinefeed => "\r\n"
  | LineEnding.LineFeed => "\n"
  | LineEnding.Unspecified => "\n"

/-- The cells joined with the delimiter, followed by the line ending, with no
quoting: the plain row the spec describes for the header. -/
def joinedRow (delimiter : Char) (ending : LineEnding) (cells : List String) : String :=
  String.mk (List.intercalate [delimiter] (cells.map String.data)) ++ lineEndingText ending

/-- The bytes of one row: the written cells separated by the delimiter, then the line
terminator. -/
def rowBytes (comma : Char) (useCRLF : Bool) (cells : List String) : List Char :=
  List.intercalate [comma] (cells.map (fun cell => writeField comma useCRLF cell.data))
    ++ lineTerminator useCRLF

/-- The bytes of the rows of a sequence of records, in the order of the records. -/
def rowsBytes (comma : Char) (useCRLF : Bool) (fields : List String) (records : List Record) :
    List Char :=
  (records.map (fun record => rowBytes comma useCRLF (rowValues fields record))).flatten

/-- The text of a cell with every double quote doubled and all other characters
unchanged: the quoting the spec describes. -/
def doubleQuotes (text : List Char) : List Char :=
  (text.map (fun c => if c = '"' then ['"', '"'] else [c])).flatten

/-- What the writer puts between the enclosing quotes for one character of a cell:
a quote is doubled; under `UseCRLF` a carriage return is dropped and a line feed
becomes carriage return plus line feed; any other character is kept. -/
def escapeChar (useCRLF : Bool) (c : Char) : List Char :=
  if c = '"' then ['"', '"']
  else if c = '\r' then (if useCRLF then [] else ['\r'])
  else if c = '\n' then (if useCRLF then ['\r', '\n'] else ['\n'])
  else [c]

/-- The escaped text of a cell, character by character. -/
def escapeCell (useCRLF : Bool) (text : List Char) : List Char :=
  (text.map (escapeChar useCRLF)).flatten

/-- Successive calls of `Add`, one per batch of non-nil records; `none` when a call
does not return normally. -/
def addAll (f : Formatter) : List (List Record) → Option Formatter
  | [] => some f
  | records :: rest =>
    match f.Add (some (records.map some)) with
    | AddResult.ok f' => addAll f' rest
    | _ => none

/-- The formatter `f` after the rows of `records` are written and flushed: the builder
receives the bytes still held in the buffer, which is empty unless an earlier `Add`
panicked, and then the rows of `records`. -/
def Formatter.withRows (f : Formatter) (records : List Record) : Formatter :=
  { f with
    writer := { f.writer with
      buf := ""
      sb := f.writer.sb ++ f.writer.buf
        ++ String.mk (rowsBytes f.writer.Comma f.writer.UseCRLF f.fields records) } }

/-! ## A reader of delimited text

The round-trip property of the spec speaks of a standard delimited-text reader. The
reader below follows the `Reader` of `encoding/csv`, the counterpart of the writer the
formatter uses, in its default configuration (no comment character, no lazy quotes,
leading space kept, the number of fields fixed by the first record), with `Comma` set
to the delimiter. As the package documents, carriage returns before line feeds are
removed and blank lines are ignored. The reader is given as a machine that consumes
the normalised input one character at a time. -/

/-- The line normalisation of the reader. Go's `readLine` cuts the input at every line
feed, turns a carriage return plus line feed at the end of a line into a line feed,
and drops a carriage return that ends the input. On the whole input: a carriage
return that stands before a line feed or at the very end is removed. -/
def normalizeLines : List Char → List Char
  | [] => []
  | c :: rest =>
    if c = '\r' ∧ (rest = [] ∨ rest.head? = some '\n') then normalizeLines rest
    else c :: normalizeLines rest

/-- The places of the reader inside the text: before a record (at the start of a
line), at the start of a further field, inside an unquoted field, inside a quoted
field, and right after a quote inside a quoted field. -/
inductive ReadState where
  | recordStart
  | fieldStart
  | unquoted
  | quoted
  | quoteSeen
  deriving DecidableEq, Repr

/-- The state of the reader: its place, the characters of the current field, the
fields of the current record, and the records read so far. -/
structure Reading where
  state : ReadState
  field : List Char
  record : List String
  records : List (List String)
  deriving DecidableEq, Repr

/-- The error of the reader for a quote inside an unquoted field. -/
def errBareQuote : String := "bare \" in non-quoted-field"

/-- The error of the reader for a quoted field that is not closed properly. -/
def errQuote : String := "extraneous or missing \" in quoted-field"

/-- The error of the reader for a record with another number of fields than the first. -/
def errFieldCount : String := "wrong number of fields"

/-- A complete record in the reader. The first record fixes the number of fields, and
a later record with another number of fields is an error; after the record the reader
is before the next record. -/
def pushRecord (records : List (List String)) (record : List String) : Except String Reading :=
  match records with
  | [] =>
    Except.ok { state := ReadState.recordStart, field := [], record := [], records := [record] }
  | first :: _ =>
    if record.length = first.length then
      Except.ok { state := ReadState.recordStart, field := [], record := []
                  records := records ++ [record] }
    else Except.error errFieldCount

/-- The end of a record: the current field closes the record. -/
def endRecord (s : Reading) : Except String Reading :=
  pushRecord s.records (s.record ++ [String.mk s.field])

/-- The end of a field that is followed by the delimiter. -/
def endField (s : Reading) : Reading :=
  { s with state := ReadState.fieldStart, field := [], record := s.record ++ [String.mk s.field] }

/-- One character of normalised input in the reader.
A blank line before a record is skipped; a field that starts with a quote is a quoted
field, which ends at a quote followed by the delimiter, by a line feed or by the end
of the input, and in which two quotes stand for one; any other field runs to the
next delimiter or line feed and must not hold a quote. -/
def readStep (comma : Char) (s : Reading) (c : Char) : Except String Reading :=
  match s.state with
  | ReadState.recordStart =>
    if c = '\n' then Except.ok s
    else if c = '"' then Except.ok { s with state := ReadState.quoted }
    else if c = comma then Except.ok (endField s)
    else Except.ok { s with state := ReadState.unquoted, field := [c] }
  | ReadState.fieldStart =>
    if c = '"' then Except.ok { s with state := ReadState.quoted }
    else if c = comma then Except.ok (endField s)
    else if c = '\n' then endRecord s
    else Except.ok { s with state := ReadState.unquoted, field := [c] }
  | ReadState.unquoted =>
    if c = comma then Except.ok (endField s)
    else if c = '\n' then endRecord s
    else if c = '"' then Except.error errBareQuote
    else Except.ok { s with field := s.field ++ [c] }
  | ReadState.quoted =>
    if c = '"' then Except.ok { s with state := ReadState.quoteSeen }
    else Except.ok { s with field := s.field ++ [c] }
  | ReadState.quoteSeen =>
    if c = '"' then Except.ok { s with state := ReadState.quoted, field := s.field ++ ['"'] }
    else if c = comma then Except.ok (endField s)
    else if c = '\n' then endRecord s
    else Except.error errQuote

/-- The reader run over a piece of normalised input. -/
def readChars (comma : Char) : Reading → List Char → Except String Reading
  | s, [] => Except.ok s
  | s, c :: rest =>
    match readStep comma s c with
    | Except.error err => Except.error err
    | Except.ok s => readChars comma s rest

/-- The end of the input in the reader. A record in
progress is closed, an open quoted field is an error. -/
def readEnd (s : Reading) : Except String (List (List String)) :=
  match s.state with
  | ReadState.recordStart => Except.ok s.records
  | ReadState.quoted => Except.error errQuote
  | _ =>
    match endRecord s with
    | Except.error err => Except.error err
    | Except.ok s => Except.ok s.records

/-- The delimited-text reader: `ReadAll` of a `csv.Reader` over the document with
`Comma` set to `comma`, which yields all records of the document or the first error. -/
def readAll (comma : Char) (document : String) : Except String (List (List String)) :=
  if !validDelim comma then Except.error errInvalidDelim
  else
    match readChars comma
        { state := ReadState.recordStart, field := [], record := [], records := [] }
        (normalizeLines document.data) with
    | Except.error err => Except.error err
    | Except.ok s => readEnd s
/-- A record whose `Id` holds a line feed. -/
def recordWithLF : Record :=
  { Fields := fun k => if k = "Id" then some (Value.str "a\nb") else none
    InsertNull := false }

/-- No carriage return of the text stands immediately before a line feed. -/
def noCRLF : List Char → Bool
  | [] => true
  | c :: rest => !(c = '\r' && rest.head? = some '\n') && noCRLF rest

/-- The condition under which the line breaks of a cell survive the writer and the
reader: under `UseCRLF` the cell holds no carriage return, which the writer would drop;
otherwise no carriage return of the cell stands immediately before a line feed, where
the reader would drop it. -/
def keepsLineBreaks (useCRLF : Bool) (cell : List Char) : Bool :=
  if useCRLF then !cell.contains '\r' else noCRLF cell

/-! ## Sample data -/

/-- A job with the comma as delimiter and line feeds. -/
def jobCommaLF : Job := ⟨',', ⟨LineEnding.LineFeed⟩⟩

/-- A job with the comma as delimiter and carriage return plus line feed. -/
def jobCommaCRLF : Job := ⟨',', ⟨LineEnding.CarriageReturnLinefeed⟩⟩

/-- A record with `Id` set, `Name` absent and a key outside the schema. -/
def recordWithExtra : Record :=
  { Fields := fun k =>
      if k = "Id" then some (Value.str "001")
      else if k = "Extra" then some (Value.int 7) else none
    InsertNull := true }

/-- The record of the example of the spec: `Id` is `001`, `Name` is present with the
nil value. -/
def recordNilName (insertNull : Bool) : Record :=
  { Fields := fun k =>
      if k = "Id" then some (Value.str "001")
      else if k = "Name" then some Value.nil else none
    InsertNull := insertNull }

/-- A record with a string, a boolean and a negative integer. -/
def recordTyped (insertNull : Bool) : Record :=
  { Fields := fun k =>
      if k = "Name" then some (Value.str "Ada")
      else if k = "Active" then some (Value.bool true)
      else if k = "Count" then some (Value.int (-120)) else none
    InsertNull := insertNull }

/-- A record whose `Id` holds a carriage return. -/
def recordWithCR : Record :=
  { Fields := fun k => if k = "Id" then some (Value.str "a\rb") else none
    InsertNull := false }

/-- A record whose `Id` holds a carriage return plus line feed. -/
def recordWithCRLF : Record :=
  { Fields := fun k => if k = "Id" then some (Value.str "a\r\nb") else none
    InsertNull := false }

/-- A record without fields that asks for empty cells. -/
def recordNoFields : Record :=
  { Fields := fun _ => none
    InsertNull := false }

/-- A record with the same `Id` and `InsertNull()` as `recordWithExtra` and another key
outside the schema `Id`, `Name`. -/
def recordWithOtherExtra : Record :=
  { Fields := fun k =>
      if k = "Id" then some (Value.str "001")
      else if k = "Phone" then some (Value.str "555") else none
    InsertNull := true }

/-- The state after `NewFormatter` for the comma, line feeds and the schema `Id`,
`Name`, and a call `Add(r, nil)` that panicked on its second argument and from which
the caller recovered, `r` being the record with `Id` `001` and a nil `Name` that asks
for empty cells: the row of `r` is in the buffer of the writer. -/
def stateAfterPanic : Formatter :=
  { job := jobCommaLF
    fields := ["Id", "Name"]
    writer := { Comma := ',', UseCRLF := false, buf := "001,\n", sb := "Id,Name\n" } }

end Bulk

namespace Sfdc

/-! ## The error decoder of package `sfdc`

The file `error.go` with `Error`, `Error.UnmarshalJSON` and `HandleError` is not among
the sources; only its test `error_test.go` is. The definitions of this section follow
the description of the spec. The JSON parser `json.Unmarshal` of the standard library
is a parameter `unmarshal`, which maps a text to the JSON value it denotes, or to
`none` for a text that is not valid JSON. -/

/-- Modelled from the spec: a JSON value as `json.Unmarshal` yields it for a payload;
the type is not declared in the sources. An object is the list of its members in the
order of the text. -/
inductive JsonValue where
  | null
  | bool (b : Bool)
  | number (text : String)
  | string (s : String)
  | array (items : List JsonValue)
  | object (members : List (String × JsonValue))

/-- Modelled from the spec: the structured error `Error` of `error.go`, with the code,
the message and the ordered field names. -/
structure Error where
  ErrorCode : String
  Message : String
  Fields : List String
  deriving DecidableEq, Repr

/-- Modelled from the spec: the member of a JSON object under a key, as the missing
decoder looks it up; of several members with one key the last counts. -/
def member (key : String) (members : List (String × JsonValue)) : Option JsonValue :=
  members.reverse.lookup key

/-- Modelled from the spec: the string held by a JSON value, for the string-valued
members of the error payload of the missing decoder. -/
def asString : JsonValue → Option String
  | JsonValue.string s => some s
  | _ => none

/-- Modelled from the spec: the strings of the `fields` array of the error payload of
the missing decoder, in order. -/
def asStrings : List JsonValue → Option (List String)
  | [] => some []
  | v :: vs =>
    match asString v, asStrings vs with
    | some s, some ss => some (s :: ss)
    | _, _ => none

/-- The decode error for a payload that is not valid JSON. -/
def errInvalidJSON : String := "invalid JSON"

/-- The decode error for a payload that is not a JSON object of the expected shape. -/
def errShape : String := "unexpected shape of the error payload"

/-- The decode error for a payload without a usable message. -/
def errNoMessage : String := "no usable message"

/-- Modelled from the spec: `Error.UnmarshalJSON` of `error.go` (`Decode` in the spec),
which is missing from the sources. The payload must be a JSON object with a string
`message`; `fields` is optional and absent means empty; the code is the string under
`statusCode` or, when that key is absent, under `errorCode`, and the empty string when
both are absent. The result is the decoded error or a decode error. -/
def Error.UnmarshalJSON (unmarshal : String → Option JsonValue) (data : String) :
    Except String Error :=
  match unmarshal data with
  | none => Except.error errInvalidJSON
  | some (JsonValue.object members) =>
    match member "message" members with
    | some (JsonValue.string message) =>
      let fields :=
        match member "fields" members with
        | none => some []
        | some (JsonValue.array items) => asStrings items
        | some _ => none
      let code :=
        match member "statusCode" members with
        | some v => asString v
        | none =>
          match member "errorCode" members with
          | some v => asString v
          | none => some ""
      match code, fields with
      | some code, some fields =>
        Except.ok { ErrorCode := code, Message := message, Fields := fields }
      | _, _ => Except.error errShape
    | _ => Except.error errNoMessage
  | some _ => Except.error errShape

/-- Modelled from the spec: the response handed to `HandleError`, an HTTP-style
response with a status line and a body stream; the type comes from `net/http`. The
body is the sequence of the results of the successive reads, each a chunk of text or
a read error, and ends with the end of the stream. -/
structure Response where
  Status : String
  Body : List (Except String String)

/-- Modelled from the spec: reading the entire body, the first step of the missing
`HandleError`: the chunks up to the end of the stream, or the first read error. -/
def ReadAll : List (Except String String) → Except String String
  | [] => Except.ok ""
  | Except.error err :: _ => Except.error err
  | Except.ok chunk :: rest =>
    match ReadAll rest with
    | Except.error err => Except.error err
    | Except.ok text => Except.ok (chunk ++ text)

/-- Modelled from the spec: `HandleError` of `error.go`, which is missing from the
sources. The result is the returned `error`: `none` for nil, the message otherwise.
The body is read entirely; a read failure gives the status and the read error; after
a successful read the decoder is tried on the body, and whether or not it succeeds
the message is the status followed by the raw body. -/
def HandleError (unmarshal : String → Option JsonValue) (resp : Response) : Option String :=
  match ReadAll resp.Body with
  | Except.error err =>
    some (resp.Status ++ ": could not read the body with error: " ++ err)
  | Except.ok body =>
    match Error.UnmarshalJSON unmarshal body with
    | Except.ok _ => some (resp.Status ++ ": " ++ body)
    | Except.error _ => some (resp.Status ++ ": " ++ body)

/-- The payload of the test case `400` of `TestHandleError`. -/
def bodyInvalid : String := "\x7b\"message\":\"invalid\"\x7d"

/-- A stand-in for the JSON parser that knows the payload of the test case `400` and
takes every other text for invalid JSON. -/
def unmarshalSample (data : String) : Option JsonValue :=
  if data = bodyInvalid then
    some (JsonValue.object [("message", JsonValue.string "invalid")])
  else none

/-- The response of the test case `400` of `TestHandleError`. -/
def responseBadRequest : Response :=
  { Status := "400 Bad Request", Body := [Except.ok bodyInvalid] }

/-- The response of the test case `read_body_error` of `TestHandleError`, whose body
fails on the first read with `io.ErrUnexpectedEOF`. -/
def responseReadError : Response :=
  { Status := "500 Internal Server Error", Body := [Except.error "unexpected EOF"] }

/-- The payload of the decode example of the spec with the key `statusCode`. -/
def payloadStatusCode : String :=
  "\x7b\"statusCode\":\"MALFORMED_ID\",\"message\":\"bad id\",\"fields\":[\"Id\"]\x7d"

/-- The payload of the decode example of the spec with the key `errorCode`, in the key
order of the second case of `TestError_UnmarshalJSON`. -/
def payloadErrorCode : String :=
  "\x7b\"fields\":[\"Id\"],\"message\":\"bad id\",\"errorCode\":\"MALFORMED_ID\"\x7d"

/-- A stand-in for the JSON parser that knows the two payloads of the decode example
and takes every other text for invalid JSON. -/
def unmarshalExamples (data : String) : Option JsonValue :=
  if data = payloadStatusCode then
    some (JsonValue.object
      [("statusCode", JsonValue.string "MALFORMED_ID"), ("message", JsonValue.string "bad id"),
        ("fields", JsonValue.array [JsonValue.string "Id"])])
  else if data = payloadErrorCode then
    some (JsonValue.object
      [("fields", JsonValue.array [JsonValue.string "Id"]), ("message", JsonValue.string "bad id"),
        ("errorCode", JsonValue.string "MALFORMED_ID")])
  else none

end Sfdc

namespace Bulk

/-! # Theorems -/

/-! ## Auxiliary lemmas -/

theorem string_empty_append (s : String) : "" ++ s = s := by
  apply String.ext
  simp [String.data_append]

theorem string_append_empty (s : String) : s ++ "" = s := by
  apply String.ext
  simp [String.data_append]

theorem take_set_succ {α : Type} (l : List α) (i : Nat) (a : α) (h : i < l.length) :
    (l.set i a).take (i + 1) = l.take i ++ [a] := by
  induction l generalizing i with
  | nil => simp at h
  | cons x xs ih =>
    cases i with
    | zero => simp
    | succ j =>
      simp only [List.length_cons, Nat.add_lt_add_iff_right] at h
      simp [ih j h]

/-- The inner loop of `Add` leaves the slots before `idx` alone and fills the
following ones with the cell values of the remaining field names. -/
theorem fillValues_eq (recFields : String → Option Value) (insertNull : Bool) :
    ∀ (rest : List String) (idx : Nat) (values : List String),
      idx + rest.length = values.length →
      fillValues recFields insertNull idx rest values
        = values.take idx ++ rest.map (fun field => cellValue insertNull (recFields field))
  | [], idx, values, h => by
    simp only [List.length_nil, Nat.add_zero] at h
    simp [fillValues, h]
  | field :: rest, idx, values, h => by
    simp only [List.length_cons] at h
    have hidx : idx < values.length := by omega
    have hstep : (match recFields field with
        | some value =>
          if value ≠ Value.nil then
            (values.set idx (if insertNull then "#N/A" else "")).set idx (sprintfV value)
          else values.set idx (if insertNull then "#N/A" else "")
        | none => values.set idx (if insertNull then "#N/A" else ""))
        = values.set idx (cellValue insertNull (recFields field)) := by
      cases hrf : recFields field with
      | none => simp [cellValue]
      | some value =>
        by_cases hv : value = Value.nil
        · simp [cellValue, hv]
        · simp [cellValue, hv, List.set_set]
    rw [fillValues, hstep, fillValues_eq recFields insertNull rest (idx + 1) _ (by simp; omega),
      take_set_succ _ _ _ hidx]
    simp

/-- The row built for a record is the list of cell values of the schema names. -/
theorem rowValues_eq_map (fields : List String) (record : Record) :
    rowValues fields record
      = fields.map (fun field => cellValue record.InsertNull (record.Fields field)) := by
  unfold rowValues
  rw [fillValues_eq _ _ fields 0 _ (by simp)]
  simp

/-- `NewFormatter` succeeds exactly for a non-nil job with a valid delimiter and a
non-empty list of fields, and then returns `newFormatterState`. -/
theorem NewFormatter_ok_iff (job : Option Job) (fields : List String) (f : Formatter) :
    NewFormatter job fields = Except.ok f ↔
      ∃ j, job = some j ∧ fields ≠ [] ∧ validDelim j.delimiter = true
        ∧ f = newFormatterState j fields := by
  cases job with
  | none => simp [NewFormatter]
  | some j =>
    by_cases hf : fields = []
    · simp [NewFormatter, hf]
    · by_cases hd : validDelim j.delimiter = true
      · have hrun : NewFormatter (some j) fields = Except.ok (newFormatterState j fields) := by
          simp [NewFormatter, hf, hd, Writer.Write, Writer.Flush, newFormatterState,
            string_empty_append]
        rw [hrun]
        constructor
        · intro h
          exact ⟨j, rfl, hf, hd, (Except.ok.inj h).symm⟩
        · rintro ⟨j', hj, -, -, rfl⟩
          cases hj
          rfl
      · simp [NewFormatter, hf, hd, Writer.Write]

/-- `Add` of one record is one `Write` of its row followed by `Flush`. -/
theorem Add_single (f : Formatter) (r : Record) :
    f.Add (some [some r]) =
      (match f.writer.Write (rowValues f.fields r) with
        | Except.error err => AddResult.error err f
        | Except.ok w => AddResult.ok { f with writer := w.Flush }) := by
  simp only [Formatter.Add, addLoop]
  cases f.writer.Write (rowValues f.fields r) <;> rfl

/-! ## C1 -/

/-- C1: for a formatter built by `NewFormatter` and every record `r`, `Add(r)` hands
to the writer the row `rowValues f.fields r`; that row has exactly `len(schema)` cells,
and cell `i` is computed from `InsertNull()` and the lookup of `schema[i]` in
`Fields()` alone: the formatted value, or the default when the name is missing. -/
theorem C1_row_has_schema_cells (job : Option Job) (fields : List String) (f : Formatter)
    (r : Record) (h : NewFormatter job fields = Except.ok f) :
    f.Add (some [some r]) =
        (match f.writer.Write (rowValues f.fields r) with
          | Except.error err => AddResult.error err f
          | Except.ok w => AddResult.ok { f with writer := w.Flush })
      ∧ 0 < fields.length
      ∧ (rowValues f.fields r).length = fields.length
      ∧ ∀ (i : Nat) (hi : i < fields.length),
          (rowValues f.fields r)[i]?
            = some (cellValue r.InsertNull (r.Fields (fields[i]))) := by
  obtain ⟨j, -, hne, -, rfl⟩ := (NewFormatter_ok_iff job fields f).mp h
  refine ⟨Add_single _ r, List.length_pos.mpr hne, ?_, ?_⟩
  · simp [newFormatterState, rowValues_eq_map]
  · intro i hi
    simp [newFormatterState, rowValues_eq_map, List.getElem?_map, List.getElem?_eq_getElem hi]

/-- Witness of C1: the schema `Id`, `Name` and a record with `Id`, without `Name` and
with a key outside the schema. -/
theorem C1_row_has_schema_cells_witness :
    NewFormatter (some jobCommaLF) ["Id", "Name"]
        = Except.ok (newFormatterState jobCommaLF ["Id", "Name"])
      ∧ (rowValues ["Id", "Name"] recordWithExtra).length = 2
      ∧ (rowValues ["Id", "Name"] recordWithExtra)[0]? = some "001"
      ∧ (rowValues ["Id", "Name"] recordWithExtra)[1]? = some "#N/A" := by
  have h := C1_row_has_schema_cells (some jobCommaLF) ["Id", "Name"]
    (newFormatterState jobCommaLF ["Id", "Name"]) recordWithExtra rfl
  exact ⟨rfl, h.2.2.1, h.2.2.2 0 (by decide), h.2.2.2 1 (by decide)⟩

/-- Cell `i` of the row of a record. -/
theorem rowValues_getElem? (fields : List String) (r : Record) (i : Nat) (hi : i < fields.length) :
    (rowValues fields r)[i]? = some (cellValue r.InsertNull (r.Fields (fields[i]))) := by
  simp [rowValues_eq_map, List.getElem?_map, List.getElem?_eq_getElem hi]

/-- The marker `#N/A` is written unquoted unless the delimiter is one of its
characters. -/
theorem writeField_nullMarker (comma : Char) (useCRLF : Bool)
    (h1 : comma ≠ '#') (h2 : comma ≠ 'N') (h3 : comma ≠ '/') (h4 : comma ≠ 'A') :
    writeField comma useCRLF "#N/A".data = "#N/A".data := by
  have hq : fieldNeedsQuotes comma ['#', 'N', '/', 'A'] = false := by
    have hc : (['#', 'N', '/', 'A'] : List Char).contains comma = false := by
      simp [h1, h2, h3, h4]
    have ha : (['#', 'N', '/', 'A'] : List Char).any
        (fun c => decide (c = '\n') || decide (c = '\r') || decide (c = '"') || decide (c = comma))
          = false := by
      simp [Ne.symm h1, Ne.symm h2, Ne.symm h3, Ne.symm h4]
    have hb : (['#', 'N', '/', 'A'] : List Char).any
        (fun c => decide (c = '"') || decide (c = '\r') || decide (c = '\n')) = false := by
      decide
    unfold fieldNeedsQuotes
    rw [hc, ha, hb]
    simp [isSpace]
  show writeField comma useCRLF ['#', 'N', '/', 'A'] = ['#', 'N', '/', 'A']
  simp [writeField, hq]

/-- The empty cell is written as nothing. -/
theorem writeField_empty (comma : Char) (useCRLF : Bool) :
    writeField comma useCRLF "".data = "".data := by
  show writeField comma useCRLF [] = []
  simp [writeField, fieldNeedsQuotes]

/-! ## C2 -/

/-- C2: for every record and every schema position whose name is absent from
`Fields()` or mapped to nil there, the cell that `Add` builds is `#N/A` when
`InsertNull()` is true and the empty string when it is false, the same in both
cases of the hypothesis; the writer emits that cell verbatim for every delimiter
that is not a character of `#N/A`. -/
theorem C2_absent_or_nil_cell (fields : List String) (r : Record) (i : Nat)
    (hi : i < fields.length)
    (h : r.Fields (fields[i]) = none ∨ r.Fields (fields[i]) = some Value.nil) :
    (rowValues fields r)[i]? = some (if r.InsertNull then "#N/A" else "")
      ∧ ∀ (comma : Char) (useCRLF : Bool),
          comma ≠ '#' → comma ≠ 'N' → comma ≠ '/' → comma ≠ 'A' →
          writeField comma useCRLF (if r.InsertNull then "#N/A" else "").data
            = (if r.InsertNull then "#N/A" else "").data := by
  constructor
  · rw [rowValues_getElem? fields r i hi]
    rcases h with h | h <;> simp [h, cellValue]
  · intro comma useCRLF h1 h2 h3 h4
    cases r.InsertNull
    · exact writeField_empty comma useCRLF
    · exact writeField_nullMarker comma useCRLF h1 h2 h3 h4

/-- Witness of C2: `Name` present with nil under both settings, and `Name` absent. -/
theorem C2_absent_or_nil_cell_witness :
    (rowValues ["Id", "Name"] (recordNilName true))[1]? = some "#N/A"
      ∧ (rowValues ["Id", "Name"] (recordNilName false))[1]? = some ""
      ∧ (rowValues ["Id", "Name"] recordWithExtra)[1]? = some "#N/A" :=
  ⟨(C2_absent_or_nil_cell ["Id", "Name"] (recordNilName true) 1 (by decide)
      (Or.inr (by decide))).1,
    (C2_absent_or_nil_cell ["Id", "Name"] (recordNilName false) 1 (by decide)
      (Or.inr (by decide))).1,
    (C2_absent_or_nil_cell ["Id", "Name"] recordWithExtra 1 (by decide)
      (Or.inl (by decide))).1⟩

/-! ## C8 -/

theorem digitChar_value (k : Nat) (h : k < 10) : (Nat.digitChar k).toNat - 48 = k := by
  interval_cases k <;> rfl

theorem digitChar_isDigit (k : Nat) (h : k < 10) : (Nat.digitChar k).isDigit = true := by
  interval_cases k <;> rfl

/-- The digits produced for `n` denote `n`. -/
theorem toDigitsCore_value : ∀ (fuel n : Nat) (ds : List Char), n < fuel →
    (Nat.toDigitsCore 10 fuel n ds).foldl (fun acc c => acc * 10 + (c.toNat - 48)) 0
      = ds.foldl (fun acc c => acc * 10 + (c.toNat - 48)) n
  | 0, n, ds, h => by omega
  | fuel + 1, n, ds, h => by
    have hd := digitChar_value (n % 10) (Nat.mod_lt _ (by decide))
    simp only [Nat.toDigitsCore]
    split
    · rename_i h0
      simp only [List.foldl_cons, hd]
      congr 1
      omega
    · rename_i h0
      rw [toDigitsCore_value fuel (n / 10) _ (by omega)]
      simp only [List.foldl_cons, hd]
      congr 1
      omega

theorem toDigitsCore_isDigit : ∀ (fuel n : Nat) (ds : List Char),
    (∀ c ∈ ds, c.isDigit = true) → ∀ c ∈ Nat.toDigitsCore 10 fuel n ds, c.isDigit = true
  | 0, n, ds, h => by simpa [Nat.toDigitsCore] using h
  | fuel + 1, n, ds, h => by
    have hd := digitChar_isDigit (n % 10) (Nat.mod_lt _ (by decide))
    simp only [Nat.toDigitsCore]
    split
    · intro c hc
      rcases List.mem_cons.mp hc with rfl | hc
      · exact hd
      · exact h c hc
    · apply toDigitsCore_isDigit
      intro c hc
      rcases List.mem_cons.mp hc with rfl | hc
      · exact hd
      · exact h c hc

theorem decimalValue_toDigits (n : Nat) : decimalValue (Nat.toDigits 10 n) = n := by
  unfold decimalValue Nat.toDigits
  rw [toDigitsCore_value (n + 1) n [] (by omega)]
  rfl

theorem formatInt_ofNat (n : Nat) : (formatInt (n : Int)).data = Nat.toDigits 10 n := rfl

theorem formatInt_neg (n : Nat) :
    (formatInt (-((n : Int) + 1))).data = '-' :: Nat.toDigits 10 (n + 1) := by
  rw [← Int.negSucc_eq]
  rfl

/-- C8: for every record and every schema position whose name is present in
`Fields()` with a non-nil value `v`, the cell that `Add` builds is the `%v` text of
`v`, whatever `InsertNull()` is: a string verbatim, a boolean as `true` or `false`,
a natural number as its decimal digits (which denote the number), a negative
integer as a minus sign followed by the decimal digits of its absolute value. -/
theorem C8_present_value_cell (fields : List String) (r : Record) (i : Nat)
    (hi : i < fields.length) (v : Value) (h : r.Fields fields[i] = some v)
    (hv : v ≠ Value.nil) :
    (rowValues fields r)[i]? = some (sprintfV v)
      ∧ (∀ s : String, v = Value.str s → sprintfV v = s)
      ∧ (v = Value.bool true → sprintfV v = "true")
      ∧ (v = Value.bool false → sprintfV v = "false")
      ∧ (∀ n : Nat, v = Value.int (n : Int) →
          (sprintfV v).data = Nat.toDigits 10 n
            ∧ (∀ c ∈ (sprintfV v).data, c.isDigit = true)
            ∧ decimalValue (sprintfV v).data = n)
      ∧ (∀ n : Nat, v = Value.int (-((n : Int) + 1)) →
          (sprintfV v).data = '-' :: Nat.toDigits 10 (n + 1)) := by
  refine ⟨?_, ?_, ?_, ?_, ?_, ?_⟩
  · rw [rowValues_getElem? fields r i hi, h]
    simp [cellValue, hv]
  · rintro s rfl
    rfl
  · rintro rfl
    rfl
  · rintro rfl
    rfl
  · rintro n rfl
    refine ⟨formatInt_ofNat n, ?_, ?_⟩
    · show ∀ c ∈ Nat.toDigits 10 n, c.isDigit = true
      exact toDigitsCore_isDigit _ _ [] (by simp)
    · exact decimalValue_toDigits n
  · rintro n rfl
    exact formatInt_neg n

/-- Witness of C8: a negative integer under both settings of `InsertNull()`, a
boolean and a string. -/
theorem C8_present_value_cell_witness :
    (rowValues ["Name", "Active", "Count"] (recordTyped true))[2]? = some "-120"
      ∧ (rowValues ["Name", "Active", "Count"] (recordTyped false))[2]? = some "-120"
      ∧ (rowValues ["Name", "Active", "Count"] (recordTyped true))[1]? = some "true"
      ∧ (rowValues ["Name", "Active", "Count"] (recordTyped true))[0]? = some "Ada" :=
  ⟨(C8_present_value_cell ["Name", "Active", "Count"] (recordTyped true) 2 (by decide)
      (Value.int (-120)) (by decide) (by decide)).1.trans (by decide),
    (C8_present_value_cell ["Name", "Active", "Count"] (recordTyped false) 2 (by decide)
      (Value.int (-120)) (by decide) (by decide)).1.trans (by decide),
    (C8_present_value_cell ["Name", "Active", "Count"] (recordTyped true) 1 (by decide)
      (Value.bool true) (by decide) (by decide)).1,
    (C8_present_value_cell ["Name", "Active", "Count"] (recordTyped true) 0 (by decide)
      (Value.str "Ada") (by decide) (by decide)).1⟩

/-! ## Invariant of the reachable states -/

/-- A successful `Write` keeps the settings and the builder and only extends the
buffer. -/
theorem Write_ok (w w' : Writer) (record : List String) (h : w.Write record = Except.ok w') :
    validDelim w.Comma = true
      ∧ w' = { w with buf := w.buf ++ String.mk (writeFields w.Comma w.UseCRLF 0 record
          ++ lineTerminator w.UseCRLF) } := by
  unfold Writer.Write at h
  by_cases hd : validDelim w.Comma = true
  · simp only [hd, Bool.not_true, Bool.false_eq_true, if_false] at h
    exact ⟨hd, (Except.ok.inj h).symm⟩
  · simp [hd] at h

/-- `Write` succeeds under a valid delimiter. -/
theorem Write_valid (w : Writer) (record : List String) (hd : validDelim w.Comma = true) :
    w.Write record = Except.ok { w with
      buf := w.buf ++ String.mk (writeFields w.Comma w.UseCRLF 0 record
        ++ lineTerminator w.UseCRLF) } := by
  simp [Writer.Write, hd]

/-- Under a valid delimiter the record loop of `Add` does not fail, and at its end,
a normal one or a panic, the settings and the builder of the writer are as before. -/
theorem addLoop_valid (fields : List String) :
    ∀ (records : List (Option Record)) (w : Writer), validDelim w.Comma = true →
      (∀ err w', addLoop fields w records ≠ LoopResult.failed err w')
        ∧ ∀ w', (addLoop fields w records = LoopResult.done w'
              ∨ addLoop fields w records = LoopResult.panicked w') →
            w'.Comma = w.Comma ∧ w'.UseCRLF = w.UseCRLF ∧ w'.sb = w.sb
  | [], w, _ => by
    refine ⟨by simp [addLoop], ?_⟩
    intro w' h
    rcases h with h | h
    · simp only [addLoop, LoopResult.done.injEq] at h
      subst h
      exact ⟨rfl, rfl, rfl⟩
    · simp [addLoop] at h
  | none :: rest, w, _ => by
    refine ⟨by simp [addLoop], ?_⟩
    intro w' h
    rcases h with h | h
    · simp [addLoop] at h
    · simp only [addLoop, LoopResult.panicked.injEq] at h
      subst h
      exact ⟨rfl, rfl, rfl⟩
  | some r :: rest, w, hd => by
    have ih := addLoop_valid fields rest
      { w with buf := w.buf ++ String.mk (writeFields w.Comma w.UseCRLF 0 (rowValues fields r)
        ++ lineTerminator w.UseCRLF) } hd
    simp only [addLoop, Write_valid w _ hd]
    exact ih

/-- In a reachable state, a state after a panic of `Add` included, the delimiter of
the writer is valid, its settings are those of the job, and the schema is not empty. -/
theorem Reachable.inv {f : Formatter} (h : Reachable f) :
    validDelim f.writer.Comma = true
      ∧ f.writer.Comma = f.job.delimiter
      ∧ f.writer.UseCRLF
          = decide (f.job.WriteResponse.LineEnding = LineEnding.CarriageReturnLinefeed)
      ∧ f.fields ≠ [] := by
  induction h with
  | new job fields f hnew =>
    obtain ⟨j, -, hne, hd, rfl⟩ := (NewFormatter_ok_iff job fields f).mp hnew
    exact ⟨hd, rfl, rfl, hne⟩
  | addOk f records f' _ hadd ih =>
    cases records with
    | none => simp [Formatter.Add] at hadd
    | some rs =>
      simp only [Formatter.Add] at hadd
      cases hl : addLoop f.fields f.writer rs with
      | panicked w => simp [hl] at hadd
      | failed err w => simp [hl] at hadd
      | done w =>
        simp only [hl, AddResult.ok.injEq] at hadd
        subst hadd
        obtain ⟨hc, hu, -⟩ := (addLoop_valid f.fields rs f.writer ih.1).2 w (Or.inl hl)
        refine ⟨?_, ?_, ?_, ih.2.2.2⟩
        · simpa [Writer.Flush, hc] using ih.1
        · simpa [Writer.Flush, hc] using ih.2.1
        · simpa [Writer.Flush, hu] using ih.2.2.1
  | addError f records err f' _ hadd ih =>
    cases records with
    | none =>
      simp only [Formatter.Add, AddResult.error.injEq] at hadd
      rw [← hadd.2]
      exact ih
    | some rs =>
      simp only [Formatter.Add] at hadd
      cases hl : addLoop f.fields f.writer rs with
      | panicked w => simp [hl] at hadd
      | failed err w => exact absurd hl ((addLoop_valid f.fields rs f.writer ih.1).1 err w)
      | done w => simp [hl] at hadd
  | addPanic f records f' _ hadd ih =>
    cases records with
    | none => simp [Formatter.Add] at hadd
    | some rs =>
      simp only [Formatter.Add] at hadd
      cases hl : addLoop f.fields f.writer rs with
      | done w => simp [hl] at hadd
      | failed err w => simp [hl] at hadd
      | panicked w =>
        simp only [hl, AddResult.panic.injEq] at hadd
        subst hadd
        obtain ⟨hc, hu, -⟩ := (addLoop_valid f.fields rs f.writer ih.1).2 w (Or.inr hl)
        refine ⟨?_, ?_, ?_, ih.2.2.2⟩
        · simpa [hc] using ih.1
        · simpa [hc] using ih.2.1
        · simpa [hu] using ih.2.2.1
  | reader f _ ih => exact ih

/-- `Flush` of a writer with an empty buffer changes nothing. -/
theorem Flush_of_buf_empty (w : Writer) (h : w.buf = "") : w.Flush = w := by
  cases w with
  | mk c u b s =>
    simp only at h
    subst h
    simp [Writer.Flush, string_append_empty]

/-- After `NewFormatter` the buffer of the writer is empty. -/
theorem NewFormatter_buf (job : Option Job) (fields : List String) (f : Formatter)
    (h : NewFormatter job fields = Except.ok f) : f.writer.buf = "" := by
  obtain ⟨j, -, -, -, rfl⟩ := (NewFormatter_ok_iff job fields f).mp h
  rfl

/-- After a call of `Add` that returns without error the buffer of the writer is
empty. -/
theorem Add_ok_buf (f0 f : Formatter) (records : Option (List (Option Record)))
    (h : f0.Add records = AddResult.ok f) : f.writer.buf = "" := by
  cases records with
  | none => simp [Formatter.Add] at h
  | some rs =>
    simp only [Formatter.Add] at h
    cases hl : addLoop f0.fields f0.writer rs with
    | panicked w => simp [hl] at h
    | failed err w => simp [hl] at h
    | done w =>
      simp only [hl, AddResult.ok.injEq] at h
      subst h
      rfl

/-! ## C4 -/

/-- C4, counterexample: the call `Add()` with no arguments on a formatter that
`NewFormatter` returned passes the nil slice and gets the error of the nil check; it
does not return without error. And in the state after `Add(r, nil)` has panicked,
with the row of `r` in the buffer of the writer, `Add` of an empty collection that is
not nil returns no error and changes the content of the buffer. -/
theorem C4_add_no_arguments_fails :
    NewFormatter (some jobCommaLF) ["Id", "Name"]
        = Except.ok (newFormatterState jobCommaLF ["Id", "Name"])
      ∧ (newFormatterState jobCommaLF ["Id", "Name"]).Add (variadic [])
          = AddResult.error "bulk formatter: record interface can not be nil"
              (newFormatterState jobCommaLF ["Id", "Name"])
      ∧ (¬ ∃ f', (newFormatterState jobCommaLF ["Id", "Name"]).Add (variadic [])
          = AddResult.ok f')
      ∧ (newFormatterState jobCommaLF ["Id", "Name"]).Add
            (some [some (recordNilName false), none])
          = AddResult.panic stateAfterPanic
      ∧ stateAfterPanic.Reader.2.s = "Id,Name\n"
      ∧ ∃ f', stateAfterPanic.Add (some []) = AddResult.ok f'
          ∧ f'.Reader.2.s = "Id,Name\n001,\n"
          ∧ f'.Reader.2.s ≠ stateAfterPanic.Reader.2.s := by
  refine ⟨rfl, rfl, ?_, rfl, rfl, _, rfl, rfl, ?_⟩
  · rintro ⟨f', h⟩
    simp [variadic, Formatter.Add] at h
  · decide

/-- C4, amended: in every state, `Add` called with the nil collection, which is also
what the call `Add()` with no arguments passes, returns the error of the nil check and
leaves the formatter with its buffer unchanged; `Add` called with an empty collection
that is not nil returns no error, and it leaves the formatter with its buffer exactly
as it was in every state in which the writer holds no unflushed rows, which is so
after `NewFormatter` and after every `Add` that returned without error. -/
theorem C4_nil_fails_empty_is_noop (f : Formatter) :
    f.Add none = AddResult.error "bulk formatter: record interface can not be nil" f
      ∧ f.Add (variadic [])
          = AddResult.error "bulk formatter: record interface can not be nil" f
      ∧ (∃ f', f.Add (some []) = AddResult.ok f')
      ∧ (f.writer.buf = "" → f.Add (some []) = AddResult.ok f)
      ∧ (∀ (job : Option Job) (fields : List String),
          NewFormatter job fields = Except.ok f → f.writer.buf = "")
      ∧ (∀ (f0 : Formatter) (records : Option (List (Option Record))),
          f0.Add records = AddResult.ok f → f.writer.buf = "") := by
  refine ⟨rfl, rfl, ⟨_, rfl⟩, ?_, ?_, ?_⟩
  · intro hb
    simp only [Formatter.Add, addLoop]
    rw [Flush_of_buf_empty _ hb]
  · intro job fields h
    exact NewFormatter_buf job fields f h
  · intro f0 records h
    exact Add_ok_buf f0 f records h

/-- Witness of C4: the state right after `NewFormatter`, and the state after a
further `Add` of one record. -/
theorem C4_nil_fails_empty_is_noop_witness :
    (newFormatterState jobCommaLF ["Id", "Name"]).Add none
        = AddResult.error "bulk formatter: record interface can not be nil"
            (newFormatterState jobCommaLF ["Id", "Name"])
      ∧ (newFormatterState jobCommaLF ["Id", "Name"]).writer.buf = ""
      ∧ (newFormatterState jobCommaLF ["Id", "Name"]).Add (some [])
          = AddResult.ok (newFormatterState jobCommaLF ["Id", "Name"])
      ∧ ((newFormatterState jobCommaLF ["Id", "Name"]).withRows [recordNilName true]).Add
            (some [])
          = AddResult.ok
              ((newFormatterState jobCommaLF ["Id", "Name"]).withRows [recordNilName true]) :=
  ⟨(C4_nil_fails_empty_is_noop (newFormatterState jobCommaLF ["Id", "Name"])).1,
    (C4_nil_fails_empty_is_noop (newFormatterState jobCommaLF ["Id", "Name"])).2.2.2.2.1
      (some jobCommaLF) ["Id", "Name"] rfl,
    (C4_nil_fails_empty_is_noop (newFormatterState jobCommaLF ["Id", "Name"])).2.2.2.1 rfl,
    (C4_nil_fails_empty_is_noop
      ((newFormatterState jobCommaLF ["Id", "Name"]).withRows [recordNilName true])).2.2.2.1
      ((C4_nil_fails_empty_is_noop
        ((newFormatterState jobCommaLF ["Id", "Name"]).withRows [recordNilName true])).2.2.2.2.2
        (newFormatterState jobCommaLF ["Id", "Name"]) (some [some (recordNilName true)]) rfl)⟩

/-! ## C6 -/

/-- C6: `NewFormatter` returns an error, and so no formatter, for a nil job and for
an empty list of fields; for a job with a valid delimiter and a non-empty list of
fields it returns a formatter and no error. (Under an invalid delimiter the header
write fails and its error is returned.) -/
theorem C6_NewFormatter_result (job : Job) (fields : List String) :
    NewFormatter none fields
        = Except.error "bulk formatter: job is required for the formatter"
      ∧ NewFormatter (some job) [] = Except.error "bulk formatter: fields are required"
      ∧ (validDelim job.delimiter = true → fields ≠ [] →
          NewFormatter (some job) fields = Except.ok (newFormatterState job fields))
      ∧ (validDelim job.delimiter = false → fields ≠ [] →
          NewFormatter (some job) fields = Except.error errInvalidDelim) := by
  refine ⟨rfl, rfl, ?_, ?_⟩
  · intro hd hf
    exact (NewFormatter_ok_iff (some job) fields _).mpr ⟨job, rfl, hf, hd, rfl⟩
  · intro hd hf
    simp [NewFormatter, hf, Writer.Write, hd]

/-- Witness of C6: a comma-delimited job with two fields, and the quote as
delimiter. -/
theorem C6_NewFormatter_result_witness :
    NewFormatter (some jobCommaLF) ["Id", "Name"]
        = Except.ok (newFormatterState jobCommaLF ["Id", "Name"])
      ∧ NewFormatter (some ⟨'"', ⟨LineEnding.LineFeed⟩⟩) ["Id", "Name"]
        = Except.error errInvalidDelim :=
  ⟨(C6_NewFormatter_result jobCommaLF ["Id", "Name"]).2.2.1 (by decide) (by decide),
    (C6_NewFormatter_result ⟨'"', ⟨LineEnding.LineFeed⟩⟩ ["Id", "Name"]).2.2.2
      (by decide) (by decide)⟩

/-! ## The row written by `Write` -/

/-- After the first field the loop of `Write` puts the delimiter before each field. -/
theorem writeFields_succ (comma : Char) (useCRLF : Bool) :
    ∀ (cells : List String) (n : Nat),
      writeFields comma useCRLF (n + 1) cells
        = (cells.map (fun cell => comma :: writeField comma useCRLF cell.data)).flatten
  | [], n => rfl
  | cell :: rest, n => by
    simp [writeFields, writeFields_succ comma useCRLF rest (n + 1)]

/-- The fields of a row are the written cells separated by the delimiter. -/
theorem writeFields_zero (comma : Char) (useCRLF : Bool) (cells : List String) :
    writeFields comma useCRLF 0 cells
      = List.intercalate [comma] (cells.map (fun cell => writeField comma useCRLF cell.data)) := by
  cases cells with
  | nil => rfl
  | cons cell rest =>
    simp only [writeFields, Nat.lt_irrefl, if_false, List.nil_append, Nat.zero_add,
      writeFields_succ comma useCRLF rest 0, List.map_cons, gt_iff_lt]
    induction rest generalizing cell with
    | nil => simp [List.intercalate]
    | cons c2 rest ih =>
      have := ih c2
      simp only [List.intercalate, List.map_cons, List.intersperse_cons_cons, List.flatten_cons,
        List.singleton_append] at this ⊢
      rw [← this]
      simp

/-- The line terminator of a writer configured from a line-ending setting. -/
theorem lineTerminator_eq (ending : LineEnding) :
    lineTerminator (decide (ending = LineEnding.CarriageReturnLinefeed))
      = (lineEndingText ending).data := by
  cases ending <;> rfl

/-! ## C7 -/

/-- C7, counterexample: for the one-field schema `a,b` under the comma the content
after construction is the quoted name, not the name followed by the line ending. -/
theorem C7_header_with_delimiter_is_quoted :
    NewFormatter (some jobCommaLF) ["a,b"] = Except.ok (newFormatterState jobCommaLF ["a,b"])
      ∧ (newFormatterState jobCommaLF ["a,b"]).Reader.2.s = "\"a,b\"\n"
      ∧ joinedRow ',' LineEnding.LineFeed ["a,b"] = "a,b\n"
      ∧ (newFormatterState jobCommaLF ["a,b"]).Reader.2.s
          ≠ joinedRow ',' LineEnding.LineFeed ["a,b"] := by
  refine ⟨rfl, rfl, rfl, ?_⟩
  decide

/-- C7, amended: after a successful `NewFormatter` the content of `Reader()` is exactly
the field names, each as the writer emits it, separated by the delimiter and followed
by the line ending (`\n` for `LineFeed`, `\r\n` for `CarriageReturnLinefeed`); when
no field name needs quotes this is exactly the names joined with the delimiter
followed by the line ending. -/
theorem C7_header_content (job : Job) (fields : List String) (f : Formatter)
    (h : NewFormatter (some job) fields = Except.ok f) :
    f.Reader.2 =
        { s := String.mk (List.intercalate [job.delimiter]
              (fields.map (fun name => writeField job.delimiter
                (decide (job.WriteResponse.LineEnding = LineEnding.CarriageReturnLinefeed))
                name.data)))
            ++ lineEndingText job.WriteResponse.LineEnding
          i := 0 }
      ∧ ((∀ name ∈ fields, fieldNeedsQuotes job.delimiter name.data = false) →
          f.Reader.2.s = joinedRow job.delimiter job.WriteResponse.LineEnding fields) := by
  obtain ⟨j, hj, -, -, rfl⟩ := (NewFormatter_ok_iff (some job) fields f).mp h
  cases hj
  have hs : (newFormatterState job fields).Reader.2.s
      = String.mk (List.intercalate [job.delimiter]
              (fields.map (fun name => writeField job.delimiter
                (decide (job.WriteResponse.LineEnding = LineEnding.CarriageReturnLinefeed))
                name.data)))
            ++ lineEndingText job.WriteResponse.LineEnding := by
    apply String.ext
    simp only [Formatter.Reader, Formatter.sb, newFormatterState, writeFields_zero,
      lineTerminator_eq, String.data_append]
  constructor
  · simp only [Formatter.Reader] at hs ⊢
    rw [hs]
  · intro hq
    rw [hs, joinedRow]
    congr 3
    apply List.map_congr_left
    intro name hname
    simp [writeField, hq name hname]

/-- Witness of C7: the header of the schema `Id`, `Name`, with line feed and with
carriage return plus line feed. -/
theorem C7_header_content_witness :
    (newFormatterState jobCommaLF ["Id", "Name"]).Reader.2.s = "Id,Name\n"
      ∧ (newFormatterState jobCommaCRLF ["Id", "Name"]).Reader.2.s = "Id,Name\r\n" :=
  ⟨((C7_header_content jobCommaLF ["Id", "Name"] _ rfl).2 (by decide)).trans (by decide),
    ((C7_header_content jobCommaCRLF ["Id", "Name"] _ rfl).2 (by decide)).trans (by decide)⟩

/-! ## Rows appended by `Add` -/

theorem string_mk_append (a b : List Char) : String.mk a ++ String.mk b = String.mk (a ++ b) :=
  rfl

theorem string_append_assoc (a b c : String) : a ++ b ++ c = a ++ (b ++ c) := by
  apply String.ext
  simp [String.data_append]

/-- Over non-nil records and a valid delimiter the record loop of `Add` buffers the rows
of the records in order. -/
theorem addLoop_some (fields : List String) :
    ∀ (rs : List Record) (w : Writer), validDelim w.Comma = true →
      addLoop fields w (rs.map some)
        = LoopResult.done { w with
            buf := w.buf ++ String.mk (rowsBytes w.Comma w.UseCRLF fields rs) }
  | [], w, _ => by
    cases w
    simp [addLoop, rowsBytes, string_append_empty]
  | r :: rest, w, hd => by
    have ih := addLoop_some fields rest
      { w with buf := w.buf ++ String.mk (writeFields w.Comma w.UseCRLF 0 (rowValues fields r)
        ++ lineTerminator w.UseCRLF) } hd
    simp only [List.map_cons, addLoop, Write_valid w _ hd]
    rw [ih]
    simp only [rowsBytes, List.map_cons, List.flatten_cons, rowBytes, writeFields_zero,
      string_append_assoc, string_mk_append]

/-- In a reachable state `Add` of non-nil records returns without error, with the
buffer of the writer flushed: the builder receives the bytes that were in the buffer,
if any, and then the rows of the records. -/
theorem Add_some_of_reachable (f : Formatter) (h : Reachable f) (rs : List Record) :
    f.Add (some (rs.map some))
      = AddResult.ok { f with
          writer := { f.writer with
            buf := ""
            sb := f.writer.sb ++ f.writer.buf
              ++ String.mk (rowsBytes f.writer.Comma f.writer.UseCRLF f.fields rs) } } := by
  simp only [Formatter.Add, addLoop_some f.fields rs f.writer h.inv.1, Writer.Flush,
    string_append_assoc]

/-! ## C5 -/

/-- The escaped text of a cell, split at its first special character as the loop of
the writer does. -/
theorem escapeCell_split (useCRLF : Bool) :
    ∀ field : List Char,
      escapeCell useCRLF field
        = field.take (indexSpecial field)
          ++ (match field.drop (indexSpecial field) with
              | [] => []
              | c :: rest => encodeSpecial useCRLF c ++ escapeCell useCRLF rest)
  | [] => rfl
  | c :: cs => by
    by_cases hc : c = '"' ∨ c = '\r' ∨ c = '\n'
    · have hi : indexSpecial (c :: cs) = 0 := by
        simp only [indexSpecial]
        rcases hc with h | h | h <;> simp [h]
      rw [hi]
      simp only [List.take_zero, List.drop_zero, List.nil_append]
      have he : escapeChar useCRLF c = encodeSpecial useCRLF c := by
        rcases hc with h | h | h <;> subst h <;> cases useCRLF <;> rfl
      simp [escapeCell, he]
    · have h1 : c ≠ '"' := fun h => hc (Or.inl h)
      have h2 : c ≠ '\r' := fun h => hc (Or.inr (Or.inl h))
      have h3 : c ≠ '\n' := fun h => hc (Or.inr (Or.inr h))
      have hi : indexSpecial (c :: cs) = indexSpecial cs + 1 := by
        simp [indexSpecial, h1, h2, h3]
      rw [hi]
      have he : escapeChar useCRLF c = [c] := by
        simp [escapeChar, h1, h2, h3]
      have ih := escapeCell_split useCRLF cs
      simp only [escapeCell, List.map_cons, List.flatten_cons, he, List.take_succ_cons,
        List.drop_succ_cons, List.singleton_append, List.cons_append] at ih ⊢
      rw [ih]
      simp

/-- With enough fuel the quoting loop of the writer computes the escaped text. -/
theorem quoteLoop_eq_escapeCell (useCRLF : Bool) :
    ∀ (fuel : Nat) (field : List Char), field.length ≤ fuel →
      quoteLoop useCRLF fuel field = escapeCell useCRLF field
  | 0, field, h => by
    have : field = [] := List.length_eq_zero.mp (Nat.le_zero.mp h)
    subst this
    rfl
  | fuel + 1, field, h => by
    rw [escapeCell_split useCRLF field]
    unfold quoteLoop
    by_cases hpos : field.length > 0
    · simp only [hpos, if_true]
      cases hdrop : field.drop (indexSpecial field) with
      | nil => simp
      | cons c rest =>
        have hlen : rest.length ≤ fuel := by
          have := congrArg List.length hdrop
          simp only [List.length_drop, List.length_cons] at this
          omega
        simp [quoteLoop_eq_escapeCell useCRLF fuel rest hlen]
    · have : field = [] := List.length_eq_zero.mp (by omega)
      subst this
      simp [indexSpecial]

/-- Without `UseCRLF` the escaped text is the text with its quotes doubled. -/
theorem escapeCell_false (text : List Char) : escapeCell false text = doubleQuotes text := by
  unfold escapeCell doubleQuotes
  congr 1
  apply List.map_congr_left
  intro c _
  by_cases h1 : c = '"'
  · simp [escapeChar, h1]
  · by_cases h2 : c = '\r'
    · simp [escapeChar, h2]
    · by_cases h3 : c = '\n'
      · simp [escapeChar, h3]
      · simp [escapeChar, h1, h2, h3]

/-- A field that holds the delimiter, a quote, a carriage return or a line feed needs
quotes. -/
theorem fieldNeedsQuotes_of_mem (comma : Char) (field : List Char)
    (h : comma ∈ field ∨ '"' ∈ field ∨ '\r' ∈ field ∨ '\n' ∈ field) :
    fieldNeedsQuotes comma field = true := by
  have hne : field ≠ [] := by
    rintro rfl
    simp at h
  unfold fieldNeedsQuotes
  simp only [hne, if_false]
  by_cases hdot : field = ['\\', '.']
  · simp [hdot]
  · simp only [hdot, if_false]
    have hany : (if comma.toNat < 0x80 then
        field.any (fun c => decide (c = '\n') || decide (c = '\r') || decide (c = '"')
          || decide (c = comma))
      else
        field.contains comma || field.any (fun c => decide (c = '"') || decide (c = '\r')
          || decide (c = '\n'))) = true := by
      split
      · simp only [List.any_eq_true, Bool.or_eq_true, decide_eq_true_eq]
        rcases h with h | h | h | h
        · exact ⟨comma, h, Or.inr rfl⟩
        · exact ⟨'"', h, Or.inl (Or.inr rfl)⟩
        · exact ⟨'\r', h, Or.inl (Or.inl (Or.inr rfl))⟩
        · exact ⟨'\n', h, Or.inl (Or.inl (Or.inl rfl))⟩
      · simp only [Bool.or_eq_true, List.any_eq_true, decide_eq_true_eq]
        rcases h with h | h | h | h
        · exact Or.inl (List.elem_eq_true_of_mem h)
        · exact Or.inr ⟨'"', h, Or.inl (Or.inl rfl)⟩
        · exact Or.inr ⟨'\r', h, Or.inl (Or.inr rfl)⟩
        · exact Or.inr ⟨'\n', h, Or.inr rfl⟩
    rw [hany]
    rfl

/-- A field that needs quotes is written between quotes, escaped. -/
theorem writeField_quoted (comma : Char) (useCRLF : Bool) (field : List Char)
    (h : fieldNeedsQuotes comma field = true) :
    writeField comma useCRLF field = ['"'] ++ escapeCell useCRLF field ++ ['"'] := by
  simp [writeField, h, quoteLoop_eq_escapeCell useCRLF field.length field (Nat.le_refl _)]

/-- C5, counterexample: under `CarriageReturnLinefeed` the cell `a\rb` is written as
`"ab"`; the bytes between the quotes are not the cell text with its quotes doubled. -/
theorem C5_carriage_return_dropped :
    NewFormatter (some jobCommaCRLF) ["Id"] = Except.ok (newFormatterState jobCommaCRLF ["Id"])
      ∧ rowValues ["Id"] recordWithCR = ["a\rb"]
      ∧ (∃ f', (newFormatterState jobCommaCRLF ["Id"]).Add (some [some recordWithCR])
            = AddResult.ok f' ∧ f'.Reader.2.s = "Id\r\n\"ab\"\r\n")
      ∧ writeField ',' true "a\rb".data = "\"ab\"".data
      ∧ writeField ',' true "a\rb".data ≠ ['"'] ++ doubleQuotes "a\rb".data ++ ['"'] := by
  refine ⟨rfl, rfl, ⟨_, rfl, rfl⟩, rfl, ?_⟩
  decide

/-- C5, amended: the header is the row of the field names and `Add` appends the row of
the cells of a record (after the bytes of the buffer of the writer, which is empty
unless an earlier `Add` panicked), a row being the written cells separated by the
delimiter and followed by the line terminator, written with the delimiter and the
line-ending mode of the job; a cell whose text contains the delimiter, a double
quote, a carriage return or a line feed is written enclosed in double quotes with
every embedded double quote doubled; when the line ending is not
`CarriageReturnLinefeed` the bytes between the enclosing quotes otherwise reproduce
the cell text, and under `CarriageReturnLinefeed` every carriage return of the cell
is dropped and every line feed is written as carriage return plus line feed. -/
theorem C5_special_cells_are_quoted (job : Job) (fields : List String) (f0 : Formatter)
    (h0 : NewFormatter (some job) fields = Except.ok f0) (f : Formatter) (hf : Reachable f)
    (r : Record) :
    f0.sb = String.mk (rowBytes f0.writer.Comma f0.writer.UseCRLF fields)
      ∧ f.Add (some [some r])
          = AddResult.ok { f with
              writer := { f.writer with
                buf := ""
                sb := f.writer.sb ++ f.writer.buf ++ String.mk
                  (rowBytes f.writer.Comma f.writer.UseCRLF (rowValues f.fields r)) } }
      ∧ f.writer.Comma = f.job.delimiter
      ∧ f.writer.UseCRLF
          = decide (f.job.WriteResponse.LineEnding = LineEnding.CarriageReturnLinefeed)
      ∧ ∀ (comma : Char) (useCRLF : Bool) (cell : List Char),
          (comma ∈ cell ∨ '"' ∈ cell ∨ '\r' ∈ cell ∨ '\n' ∈ cell) →
          writeField comma useCRLF cell = ['"'] ++ escapeCell useCRLF cell ++ ['"']
            ∧ escapeCell false cell = doubleQuotes cell
            ∧ escapeCell true cell
                = (cell.map (fun c =>
                    if c = '"' then ['"', '"'] else if c = '\r' then []
                    else if c = '\n' then ['\r', '\n'] else [c])).flatten := by
  refine ⟨?_, ?_, hf.inv.2.1, hf.inv.2.2.1, ?_⟩
  · obtain ⟨j, hj, -, -, rfl⟩ := (NewFormatter_ok_iff (some job) fields f0).mp h0
    simp [Formatter.sb, newFormatterState, rowBytes, writeFields_zero]
  · have := Add_some_of_reachable f hf [r]
    simpa [rowsBytes] using this
  · intro comma useCRLF cell hmem
    refine ⟨writeField_quoted comma useCRLF cell (fieldNeedsQuotes_of_mem comma cell hmem),
      escapeCell_false cell, ?_⟩
    unfold escapeCell
    congr 1

/-- Witness of C5: a cell with a delimiter and a quote, added after the header. -/
theorem C5_special_cells_are_quoted_witness :
    NewFormatter (some jobCommaLF) ["Id"] = Except.ok (newFormatterState jobCommaLF ["Id"])
      ∧ Reachable (newFormatterState jobCommaLF ["Id"])
      ∧ writeField ',' false "a,\"b".data = "\"a,\"\"b\"".data :=
  have hr : Reachable (newFormatterState jobCommaLF ["Id"]) :=
    Reachable.new (some jobCommaLF) ["Id"] _ rfl
  ⟨rfl, hr,
    ((C5_special_cells_are_quoted jobCommaLF ["Id"] _ rfl _ hr recordWithCR).2.2.2.2
      ',' false "a,\"b".data (by decide)).1.trans (by decide)⟩

/-- The rows of a concatenation are the rows of the parts, in order. -/
theorem rowsBytes_append (comma : Char) (useCRLF : Bool) (fields : List String)
    (xs ys : List Record) :
    rowsBytes comma useCRLF fields (xs ++ ys)
      = rowsBytes comma useCRLF fields xs ++ rowsBytes comma useCRLF fields ys := by
  simp [rowsBytes]

/-- Appending no rows changes nothing when the buffer of the writer is empty. -/
theorem withRows_nil (f : Formatter) (hb : f.writer.buf = "") : f.withRows [] = f := by
  cases f with
  | mk job fields writer =>
    cases writer with
    | mk c u b sb =>
      simp only at hb
      subst hb
      simp [Formatter.withRows, rowsBytes, string_append_empty]

/-- Appending rows twice is appending the concatenation. -/
theorem withRows_withRows (f : Formatter) (xs ys : List Record) :
    (f.withRows xs).withRows ys = f.withRows (xs ++ ys) := by
  simp [Formatter.withRows, rowsBytes_append, string_append_assoc, string_mk_append]

/-- In a reachable state `Add` of non-nil records returns the state with their rows
appended, which is reachable. -/
theorem Add_withRows (f : Formatter) (h : Reachable f) (rs : List Record) :
    f.Add (some (rs.map some)) = AddResult.ok (f.withRows rs) ∧ Reachable (f.withRows rs) := by
  have hadd : f.Add (some (rs.map some)) = AddResult.ok (f.withRows rs) :=
    Add_some_of_reachable f h rs
  exact ⟨hadd, Reachable.addOk f _ _ h hadd⟩

/-- From a reachable state with an empty buffer every sequence of calls of `Add` with
non-nil records returns normally and appends the rows of all records in order. -/
theorem addAll_reachable :
    ∀ (batches : List (List Record)) (f : Formatter), Reachable f → f.writer.buf = "" →
      addAll f batches = some (f.withRows batches.flatten)
  | [], f, _, hb => by simp [addAll, withRows_nil f hb]
  | rs :: rest, f, h, _ => by
    obtain ⟨hadd, hr⟩ := Add_withRows f h rs
    simp only [addAll, hadd, addAll_reachable rest _ hr rfl, withRows_withRows,
      List.flatten_cons]

/-! ## C9 -/

/-- C9: with the schema `Id`, `Name`, the comma and line feeds the document after
construction is `Id,Name\n`; adding the record with `Id` set to `001` and `Name` set
to nil appends exactly `001,#N/A\n` when `InsertNull()` is true and exactly `001,\n`
when it is false. In general, in every reachable state, the row that `Add` appends
for a record (after the bytes of the buffer of the writer, which is empty unless an
earlier `Add` panicked) is the written cells separated by the delimiter followed by
`\n` under `LineFeed` and by `\r\n` under `CarriageReturnLinefeed`. -/
theorem C9_example_rows_and_terminators (f : Formatter) (h : Reachable f) (r : Record) :
    (NewFormatter (some jobCommaLF) ["Id", "Name"]
        = Except.ok (newFormatterState jobCommaLF ["Id", "Name"])
      ∧ (newFormatterState jobCommaLF ["Id", "Name"]).Reader.2.s = "Id,Name\n"
      ∧ (∃ f', (newFormatterState jobCommaLF ["Id", "Name"]).Add (some [some (recordNilName true)])
            = AddResult.ok f' ∧ f'.Reader.2.s = "Id,Name\n" ++ "001,#N/A\n")
      ∧ (∃ f', (newFormatterState jobCommaLF ["Id", "Name"]).Add (some [some (recordNilName false)])
            = AddResult.ok f' ∧ f'.Reader.2.s = "Id,Name\n" ++ "001,\n"))
      ∧ (∃ f', f.Add (some [some r]) = AddResult.ok f'
          ∧ f'.Reader.2.s = f.Reader.2.s ++ f.writer.buf
              ++ String.mk (List.intercalate [f.job.delimiter]
                  ((rowValues f.fields r).map (fun cell => writeField f.job.delimiter
                    (decide (f.job.WriteResponse.LineEnding = LineEnding.CarriageReturnLinefeed))
                    cell.data)))
              ++ lineEndingText f.job.WriteResponse.LineEnding)
      ∧ lineEndingText LineEnding.LineFeed = "\n"
      ∧ lineEndingText LineEnding.CarriageReturnLinefeed = "\r\n" := by
  refine ⟨⟨rfl, rfl, ⟨_, rfl, rfl⟩, ⟨_, rfl, rfl⟩⟩, ?_, rfl, rfl⟩
  obtain ⟨-, hc, hu, -⟩ := h.inv
  refine ⟨f.withRows [r], (Add_withRows f h [r]).1, ?_⟩
  apply String.ext
  simp [Formatter.Reader, Formatter.sb, Formatter.withRows, rowsBytes, rowBytes, hc, hu,
    lineTerminator_eq, String.data_append]

/-- Witness of C9: the record of the example added under carriage return plus line
feed. -/
theorem C9_example_rows_and_terminators_witness :
    Reachable (newFormatterState jobCommaCRLF ["Id", "Name"])
      ∧ ∃ f', (newFormatterState jobCommaCRLF ["Id", "Name"]).Add (some [some (recordNilName true)])
          = AddResult.ok f' ∧ f'.Reader.2.s = "Id,Name\r\n001,#N/A\r\n" :=
  have hr : Reachable (newFormatterState jobCommaCRLF ["Id", "Name"]) :=
    Reachable.new (some jobCommaCRLF) ["Id", "Name"] _ rfl
  ⟨hr, by
    obtain ⟨f', hadd, hs⟩ := (C9_example_rows_and_terminators _ hr (recordNilName true)).2.1
    exact ⟨f', hadd, hs.trans (by decide)⟩⟩

/-! ## The content seen by `Reader` -/

/-- As long as no call of `Add` panics, `Reader()` is a snapshot. After a successful
`NewFormatter` and any sequence of calls of `Add` with non-nil records, all of which
return without error, two calls of `Reader()` in a row yield the same cursor, at
index 0 and over the whole content of the builder, which is the header row followed
by the rows of all records added so far; after a further `Add` a new `Reader()` yields
the earlier content followed by the rows of that `Add`. -/
theorem reader_snapshot_of_returning_adds (job : Job) (fields : List String) (f0 : Formatter)
    (h0 : NewFormatter (some job) fields = Except.ok f0) (batches : List (List Record))
    (rs : List Record) :
    ∃ f, addAll f0 batches = some f
      ∧ f.Reader.1 = f
      ∧ f.Reader.1.Reader.2 = f.Reader.2
      ∧ f.Reader.2 =
          { s := String.mk (rowBytes job.delimiter
                  (decide (job.WriteResponse.LineEnding = LineEnding.CarriageReturnLinefeed))
                  fields)
              ++ String.mk (rowsBytes job.delimiter
                  (decide (job.WriteResponse.LineEnding = LineEnding.CarriageReturnLinefeed))
                  fields batches.flatten)
            i := 0 }
      ∧ ∃ f', f.Reader.1.Add (some (rs.map some)) = AddResult.ok f'
          ∧ f'.Reader.2 =
              { s := f.Reader.2.s
                  ++ String.mk (rowsBytes job.delimiter
                      (decide (job.WriteResponse.LineEnding = LineEnding.CarriageReturnLinefeed))
                      fields rs)
                i := 0 } := by
  have hr0 : Reachable f0 := Reachable.new (some job) fields f0 h0
  obtain ⟨j, hj, -, -, rfl⟩ := (NewFormatter_ok_iff (some job) fields f0).mp h0
  cases hj
  have hr : Reachable ((newFormatterState job fields).withRows batches.flatten) :=
    (Add_withRows _ hr0 batches.flatten).2
  refine ⟨_, addAll_reachable batches _ hr0 rfl, rfl, rfl, ?_, _, (Add_withRows _ hr rs).1, ?_⟩
  · simp [Formatter.Reader, Formatter.sb, Formatter.withRows, newFormatterState, rowBytes,
      writeFields_zero]
  · simp [Formatter.Reader, Formatter.sb, Formatter.withRows, newFormatterState]

/-! ## C10 -/

/-- C10, the code at the failing input: after `NewFormatter` for the comma, line feeds
and the schema `Id`, `Name`, the call `Add(r, nil)` panics on its second argument with
the row of `r` in the buffer of the writer. `Reader()` leaves that state as it is and
two calls yield the same cursor over `Id,Name\n`; after the later successful `Add` of
one other record a new `Reader()` yields the earlier content extended by the row of
`r` and then by the row of that `Add`, not by the row of that `Add` alone. -/
theorem C10_reader_after_panic_shows_stale_row :
    (newFormatterState jobCommaLF ["Id", "Name"]).Add (some [some (recordNilName false), none])
        = AddResult.panic stateAfterPanic
      ∧ stateAfterPanic.Reader.1 = stateAfterPanic
      ∧ stateAfterPanic.Reader.1.Reader.2 = stateAfterPanic.Reader.2
      ∧ stateAfterPanic.Reader.2 = { s := "Id,Name\n", i := 0 }
      ∧ ∃ f', stateAfterPanic.Reader.1.Add (some [some recordWithExtra]) = AddResult.ok f'
          ∧ rowBytes ',' false (rowValues ["Id", "Name"] recordWithExtra) = "001,#N/A\n".data
          ∧ f'.Reader.2 = { s := "Id,Name\n" ++ "001,\n" ++ "001,#N/A\n", i := 0 }
          ∧ f'.Reader.2.s ≠ stateAfterPanic.Reader.2.s
              ++ String.mk (rowBytes ',' false (rowValues ["Id", "Name"] recordWithExtra)) := by
  refine ⟨rfl, rfl, rfl, rfl, _, rfl, rfl, rfl, ?_⟩
  decide

/-! ## The reader on the rows of the writer -/

/-- Reading a piece of input and then another is reading their concatenation. -/
theorem readChars_append (comma : Char) :
    ∀ (xs ys : List Char) (s s' : Reading), readChars comma s xs = Except.ok s' →
      readChars comma s (xs ++ ys) = readChars comma s' ys
  | [], ys, s, s', h => by
    simp only [readChars, Except.ok.injEq] at h
    simp [h]
  | x :: xs, ys, s, s', h => by
    simp only [readChars, List.cons_append] at h ⊢
    cases hstep : readStep comma s x with
    | error err => simp [hstep] at h
    | ok s1 =>
      simp only [hstep] at h ⊢
      exact readChars_append comma xs ys s1 s' h

/-- Inside a quoted field the reader turns the escaped text back into the text. -/
theorem readChars_quoted (comma : Char) :
    ∀ (text : List Char) (s : Reading), s.state = ReadState.quoted →
      readChars comma s (escapeCell false text)
        = Except.ok { s with field := s.field ++ text }
  | [], s, _ => by simp [escapeCell, readChars]
  | x :: text, s, hs => by
    have hsplit : escapeCell false (x :: text) = escapeChar false x ++ escapeCell false text := by
      simp [escapeCell]
    rw [hsplit]
    by_cases hx : x = '"'
    · subst hx
      have h1 : readChars comma s (escapeChar false '"')
          = Except.ok { s with field := s.field ++ ['"'] } := by
        cases s with
        | mk st fld rcd rcds =>
          simp only at hs
          subst hs
          simp [escapeChar, readChars, readStep]
      rw [readChars_append comma _ _ s _ h1,
        readChars_quoted comma text { s with field := s.field ++ ['"'] } hs]
      simp
    · have h1 : readChars comma s (escapeChar false x)
          = Except.ok { s with field := s.field ++ [x] } := by
        have he : escapeChar false x = [x] := by
          by_cases h2 : x = '\r'
          · simp [escapeChar, h2]
          · by_cases h3 : x = '\n'
            · simp [escapeChar, h3]
            · simp [escapeChar, hx, h2, h3]
        cases s with
        | mk st fld rcd rcds =>
          simp only at hs
          subst hs
          simp [he, readChars, readStep, hx]
      rw [readChars_append comma _ _ s _ h1,
        readChars_quoted comma text { s with field := s.field ++ [x] } hs]
      simp

/-- Inside an unquoted field the reader keeps every character that is not the
delimiter, a line feed or a quote. -/
theorem readChars_unquoted (comma : Char) :
    ∀ (text : List Char) (s : Reading), s.state = ReadState.unquoted →
      (∀ x ∈ text, x ≠ comma ∧ x ≠ '\n' ∧ x ≠ '"') →
      readChars comma s text = Except.ok { s with field := s.field ++ text }
  | [], s, _, _ => by simp [readChars]
  | x :: text, s, hs, hx => by
    obtain ⟨h1, h2, h3⟩ := hx x (List.mem_cons_self _ _)
    have hstep : readStep comma s x = Except.ok { s with field := s.field ++ [x] } := by
      cases s with
      | mk st fld rcd rcds =>
        simp only at hs
        subst hs
        simp [readStep, h1, h2, h3]
    simp only [readChars, hstep]
    rw [readChars_unquoted comma text { s with field := s.field ++ [x] } hs
      (fun y hy => hx y (List.mem_cons_of_mem _ hy))]
    simp

/-- A valid delimiter is not a quote, a line feed or a carriage return. -/
theorem validDelim_ne (comma : Char) (h : validDelim comma = true) :
    comma ≠ '"' ∧ comma ≠ '\n' ∧ comma ≠ '\r' := by
  simp only [validDelim, Bool.and_eq_true, bne_iff_ne, ne_eq] at h
  exact ⟨h.1.1.1.2, h.1.2, h.1.1.2⟩

/-- A field that needs no quotes holds no delimiter, quote, carriage return or line
feed. -/
theorem not_mem_of_fieldNeedsQuotes_false (comma : Char) (field : List Char)
    (h : fieldNeedsQuotes comma field = false) :
    ∀ x ∈ field, x ≠ comma ∧ x ≠ '"' ∧ x ≠ '\r' ∧ x ≠ '\n' := by
  intro x hx
  refine ⟨?_, ?_, ?_, ?_⟩ <;> rintro rfl
  · rw [fieldNeedsQuotes_of_mem _ field (Or.inl hx)] at h
    cases h
  · rw [fieldNeedsQuotes_of_mem comma field (Or.inr (Or.inl hx))] at h
    cases h
  · rw [fieldNeedsQuotes_of_mem comma field (Or.inr (Or.inr (Or.inl hx)))] at h
    cases h
  · rw [fieldNeedsQuotes_of_mem comma field (Or.inr (Or.inr (Or.inr hx)))] at h
    cases h

/-- The reader after a cell as the writer emits it without `UseCRLF`, from the start
of a record or of a field: after the closing quote of a quoted cell, inside an
unquoted cell, or still at the start for an empty cell. -/
theorem readChars_cell (comma : Char) (hv : validDelim comma = true) (cell : List Char)
    (s : Reading) (hs : s.state = ReadState.recordStart ∨ s.state = ReadState.fieldStart)
    (hf : s.field = []) :
    readChars comma s (writeField comma false cell)
      = Except.ok (if fieldNeedsQuotes comma cell = true then
            { s with state := ReadState.quoteSeen, field := cell }
          else if cell = [] then s
          else { s with state := ReadState.unquoted, field := cell }) := by
  obtain ⟨hq, hn, -⟩ := validDelim_ne comma hv
  cases s with
  | mk st fld rcd rcds =>
  simp only at hs hf
  subst hf
  by_cases hneed : fieldNeedsQuotes comma cell = true
  · rw [writeField_quoted comma false cell hneed]
    simp only [hneed, if_true, List.singleton_append, List.cons_append]
    have h1 : readStep comma ⟨st, [], rcd, rcds⟩ '"'
        = Except.ok ⟨ReadState.quoted, [], rcd, rcds⟩ := by
      rcases hs with h | h <;> subst h <;> simp [readStep]
    simp only [readChars, h1, List.nil_append]
    rw [readChars_append comma _ _ _ _
      (readChars_quoted comma cell ⟨ReadState.quoted, [], rcd, rcds⟩ rfl)]
    simp [readChars, readStep]
  · have hneed' : fieldNeedsQuotes comma cell = false := by
      simpa using hneed
    have hmem := not_mem_of_fieldNeedsQuotes_false comma cell hneed'
    simp only [writeField, hneed', Bool.not_false, if_true, Bool.false_eq_true, if_false]
    cases cell with
    | nil => simp [readChars]
    | cons x xs =>
      obtain ⟨h1, h2, -, h4⟩ := hmem x (List.mem_cons_self _ _)
      have hstep : readStep comma ⟨st, [], rcd, rcds⟩ x
          = Except.ok ⟨ReadState.unquoted, [x], rcd, rcds⟩ := by
        rcases hs with h | h <;> subst h <;> simp [readStep, h1, h2, h4]
      simp only [readChars, hstep]
      rw [readChars_unquoted comma xs ⟨ReadState.unquoted, [x], rcd, rcds⟩ rfl
        (fun y hy => by
          obtain ⟨a, b, -, d⟩ := hmem y (List.mem_cons_of_mem _ hy)
          exact ⟨a, d, b⟩)]
      simp

/-- A cell followed by the delimiter is read as one more field of the record. -/
theorem readChars_cell_comma (comma : Char) (hv : validDelim comma = true) (cell : List Char)
    (s : Reading) (hs : s.state = ReadState.recordStart ∨ s.state = ReadState.fieldStart)
    (hf : s.field = []) (rest : List Char) :
    readChars comma s (writeField comma false cell ++ comma :: rest)
      = readChars comma
          { state := ReadState.fieldStart, field := [], record := s.record ++ [String.mk cell]
            records := s.records } rest := by
  obtain ⟨hq, hn, -⟩ := validDelim_ne comma hv
  rw [readChars_append comma _ _ s _ (readChars_cell comma hv cell s hs hf)]
  cases s with
  | mk st fld rcd rcds =>
  simp only at hs hf
  subst hf
  by_cases hneed : fieldNeedsQuotes comma cell = true
  · simp [hneed, readChars, readStep, hq, endField]
  · by_cases hc : cell = []
    · subst hc
      rcases hs with h | h <;> subst h <;> simp [hneed, readChars, readStep, hq, hn, endField]
    · simp [hneed, hc, readChars, readStep, endField]

/-- A cell followed by a line feed closes the record, unless it is an empty cell at
the start of the record, which makes a blank line. -/
theorem readChars_cell_newline (comma : Char) (hv : validDelim comma = true) (cell : List Char)
    (s : Reading) (hs : s.state = ReadState.fieldStart
      ∨ (s.state = ReadState.recordStart ∧ cell ≠ []))
    (hf : s.field = []) (rest : List Char) :
    readChars comma s (writeField comma false cell ++ '\n' :: rest)
      = (match pushRecord s.records (s.record ++ [String.mk cell]) with
          | Except.error err => Except.error err
          | Except.ok s' => readChars comma s' rest) := by
  obtain ⟨hq, hn, -⟩ := validDelim_ne comma hv
  have hs' : s.state = ReadState.recordStart ∨ s.state = ReadState.fieldStart := by
    rcases hs with h | h
    · exact Or.inr h
    · exact Or.inl h.1
  rw [readChars_append comma _ _ s _ (readChars_cell comma hv cell s hs' hf)]
  cases s with
  | mk st fld rcd rcds =>
  simp only at hs hf
  subst hf
  by_cases hneed : fieldNeedsQuotes comma cell = true
  · simp [hneed, readChars, readStep, Ne.symm hn, endRecord]
  · by_cases hc : cell = []
    · subst hc
      rcases hs with h | h
      · subst h
        simp [hneed, readChars, readStep, Ne.symm hn, endRecord]
      · exact absurd rfl h.2
    · simp [hneed, hc, readChars, readStep, Ne.symm hn, endRecord]

theorem intercalate_cons_cons {α : Type} (sep a b : List α) (l : List (List α)) :
    List.intercalate sep (a :: b :: l) = a ++ sep ++ List.intercalate sep (b :: l) := by
  simp [List.intercalate, List.intersperse_cons_cons, List.flatten_cons]

/-- The cells of a row after the first, up to the line feed, are read as the
remaining fields of the record. -/
theorem readChars_cells (comma : Char) (hv : validDelim comma = true) (rest : List Char) :
    ∀ (cells : List String) (s : Reading), cells ≠ [] → s.state = ReadState.fieldStart →
      s.field = [] →
      readChars comma s
          (List.intercalate [comma] (cells.map (fun cell => writeField comma false cell.data))
            ++ '\n' :: rest)
        = (match pushRecord s.records (s.record ++ cells) with
            | Except.error err => Except.error err
            | Except.ok s' => readChars comma s' rest)
  | [], _, h, _, _ => absurd rfl h
  | [cell], s, _, hs, hf => by
    simpa [List.intercalate] using
      readChars_cell_newline comma hv cell.data s (Or.inl hs) hf rest
  | cell :: cell2 :: cells, s, _, hs, hf => by
    simp only [List.map_cons, intercalate_cons_cons, List.append_assoc, List.singleton_append,
      List.cons_append]
    rw [readChars_cell_comma comma hv cell.data s (Or.inr hs) hf]
    have ih := readChars_cells comma hv rest (cell2 :: cells)
      { state := ReadState.fieldStart, field := [], record := s.record ++ [String.mk cell.data]
        records := s.records } (by simp) rfl rfl
    simp only [List.map_cons] at ih
    rw [List.nil_append, ih]
    simp

/-- A row of the writer that is not a blank line is read as one record. -/
theorem readChars_row (comma : Char) (hv : validDelim comma = true) (rest : List Char)
    (cells : List String) (s : Reading) (hne : cells ≠ []) (hblank : cells ≠ [""])
    (hs : s.state = ReadState.recordStart) (hf : s.field = []) (hr : s.record = []) :
    readChars comma s (rowBytes comma false cells ++ rest)
      = (match pushRecord s.records cells with
          | Except.error err => Except.error err
          | Except.ok s' => readChars comma s' rest) := by
  simp only [rowBytes, lineTerminator, Bool.false_eq_true, if_false, List.append_assoc,
    List.singleton_append]
  cases cells with
  | nil => exact absurd rfl hne
  | cons cell cells =>
    cases cells with
    | nil =>
      have hcell : cell.data ≠ [] := by
        intro h
        apply hblank
        have : cell = "" := String.ext h
        rw [this]
      simpa [List.intercalate, hr] using
        readChars_cell_newline comma hv cell.data s (Or.inr ⟨hs, hcell⟩) hf rest
    | cons cell2 cells =>
      simp only [List.map_cons, intercalate_cons_cons, List.append_assoc, List.singleton_append,
        List.cons_append]
      rw [readChars_cell_comma comma hv cell.data s (Or.inl hs) hf]
      have ih := readChars_cells comma hv rest (cell2 :: cells)
        { state := ReadState.fieldStart, field := [], record := s.record ++ [String.mk cell.data]
          records := s.records } (by simp) rfl rfl
      simp only [List.map_cons] at ih
      rw [List.nil_append, ih]
      simp [hr]

/-- Rows of one length, none of them a blank line, are read as that many records. -/
theorem readChars_rows (comma : Char) (hv : validDelim comma = true) (n : Nat) :
    ∀ (rows done : List (List String)),
      (∀ row ∈ rows, row.length = n ∧ row ≠ [] ∧ row ≠ [""]) →
      (∀ row ∈ done, row.length = n) →
      readChars comma
          { state := ReadState.recordStart, field := [], record := [], records := done }
          (rows.map (rowBytes comma false)).flatten
        = Except.ok
            { state := ReadState.recordStart, field := [], record := [], records := done ++ rows }
  | [], done, _, _ => by simp [readChars]
  | row :: rows, done, hrows, hdone => by
    obtain ⟨hlen, hne, hblank⟩ := hrows row (List.mem_cons_self _ _)
    simp only [List.map_cons, List.flatten_cons]
    rw [readChars_row comma hv _ row _ hne hblank rfl rfl rfl]
    have hpush : pushRecord done row
        = Except.ok { state := ReadState.recordStart, field := [], record := []
                      records := done ++ [row] } := by
      cases done with
      | nil => rfl
      | cons first done =>
        simp [pushRecord, hlen, hdone first (List.mem_cons_self _ _)]
    simp only [hpush]
    rw [readChars_rows comma hv n rows (done ++ [row])
      (fun r hr => hrows r (List.mem_cons_of_mem _ hr))
      (fun r hr => by
        rcases List.mem_append.mp hr with h | h
        · exact hdone r h
        · rw [List.mem_singleton.mp h]
          exact hlen)]
    simp

/-! ## Normalisation of the written rows -/

/-- Text without carriage returns passes the normalisation unchanged. -/
theorem normalizeLines_append (xs ys : List Char) (h : '\r' ∉ xs) :
    normalizeLines (xs ++ ys) = xs ++ normalizeLines ys := by
  induction xs with
  | nil => rfl
  | cons x xs ih =>
    have hx : x ≠ '\r' := fun hx => h (hx ▸ List.mem_cons_self _ _)
    have hxs : '\r' ∉ xs := fun hm => h (List.mem_cons_of_mem _ hm)
    simp [normalizeLines, hx, ih hxs]

/-- A carriage return plus line feed is normalised to a line feed. -/
theorem normalizeLines_crlf (ys : List Char) :
    normalizeLines ('\r' :: '\n' :: ys) = '\n' :: normalizeLines ys := by
  simp [normalizeLines]

/-- The escaped text of a cell without carriage returns is normalised to its escaped
text without `UseCRLF`. -/
theorem normalizeLines_escapeCell (useCRLF : Bool) (ys : List Char) :
    ∀ cell : List Char, '\r' ∉ cell →
      normalizeLines (escapeCell useCRLF cell ++ ys)
        = escapeCell false cell ++ normalizeLines ys
  | [], _ => by simp [escapeCell]
  | x :: cell, h => by
    have hx : x ≠ '\r' := fun hx => h (hx ▸ List.mem_cons_self _ _)
    have hcell : '\r' ∉ cell := fun hm => h (List.mem_cons_of_mem _ hm)
    have ih := normalizeLines_escapeCell useCRLF ys cell hcell
    have hsplit : ∀ u, escapeCell u (x :: cell) = escapeChar u x ++ escapeCell u cell := by
      intro u
      simp [escapeCell]
    rw [hsplit, hsplit, List.append_assoc]
    by_cases h1 : x = '"'
    · subst h1
      have he : ∀ u, escapeChar u '"' = ['"', '"'] := by
        intro u
        simp [escapeChar]
      rw [he, he, normalizeLines_append _ _ (by decide), ih]
      simp
    · by_cases h3 : x = '\n'
      · subst h3
        cases useCRLF
        · have he : escapeChar false '\n' = ['\n'] := by decide
          rw [he, normalizeLines_append _ _ (by decide), ih]
          simp
        · have he : escapeChar true '\n' = ['\r', '\n'] := by decide
          have he' : escapeChar false '\n' = ['\n'] := by decide
          rw [he, he']
          simp only [List.cons_append, List.nil_append]
          rw [normalizeLines_crlf, ih]
      · have he : ∀ u, escapeChar u x = [x] := by
          intro u
          simp [escapeChar, h1, hx, h3]
        rw [he, he, normalizeLines_append _ _ (by simpa using hx.symm), ih]
        simp

/-- The escaped text of a cell starts with the first character of the cell. -/
theorem escapeCell_head (d : Char) (rest zs : List Char) :
    (escapeCell false (d :: rest) ++ zs).head? = some d := by
  by_cases h1 : d = '"'
  · subst h1
    rfl
  · by_cases h2 : d = '\r'
    · subst h2
      rfl
    · by_cases h3 : d = '\n'
      · subst h3
        rfl
      · simp [escapeCell, escapeChar, h1, h2, h3]

/-- A carriage return that is followed by a character other than a line feed passes
the normalisation. -/
theorem normalizeLines_cr (xs : List Char) (h : ¬ (xs = [] ∨ xs.head? = some '\n')) :
    normalizeLines ('\r' :: xs) = '\r' :: normalizeLines xs := by
  simp [normalizeLines, h]

/-- Without `UseCRLF` the escaped text of a cell in which no carriage return stands
before a line feed passes the normalisation unchanged, when a character other than a
line feed follows it. -/
theorem normalizeLines_escapeCell_lf (y : Char) (hy : y ≠ '\n') (ys : List Char) :
    ∀ cell : List Char, noCRLF cell = true →
      normalizeLines (escapeCell false cell ++ y :: ys)
        = escapeCell false cell ++ normalizeLines (y :: ys)
  | [], _ => by simp [escapeCell]
  | c :: rest, h => by
    simp only [noCRLF, Bool.and_eq_true, Bool.not_eq_true', Bool.and_eq_false_iff,
      decide_eq_false_iff_not] at h
    have ih := normalizeLines_escapeCell_lf y hy ys rest h.2
    have hsplit : escapeCell false (c :: rest) = escapeChar false c ++ escapeCell false rest := by
      simp [escapeCell]
    rw [hsplit, List.append_assoc]
    by_cases h1 : c = '"'
    · subst h1
      have he : escapeChar false '"' = ['"', '"'] := by decide
      rw [he, normalizeLines_append _ _ (by decide), ih]
      simp
    · by_cases h2 : c = '\r'
      · subst h2
        have he : escapeChar false '\r' = ['\r'] := by decide
        rw [he]
        have hnext : ¬ ((escapeCell false rest ++ y :: ys) = []
            ∨ (escapeCell false rest ++ y :: ys).head? = some '\n') := by
          cases rest with
          | nil => simpa [escapeCell] using hy
          | cons d rest' =>
            have hhead := escapeCell_head d rest' (y :: ys)
            intro hor
            rcases hor with hnil | hh
            · rw [hnil] at hhead
              cases hhead
            · rw [hhead] at hh
              have hd : d = '\n' := Option.some.inj hh
              rcases h.1 with hc | hne
              · exact hc rfl
              · exact hne (by simp [hd])
        show normalizeLines ('\r' :: (escapeCell false rest ++ y :: ys)) = _
        rw [normalizeLines_cr _ hnext, ih]
        rfl
      · have he : escapeChar false c = [c] := by
          by_cases h3 : c = '\n'
          · subst h3
            decide
          · simp [escapeChar, h1, h2, h3]
        rw [he, normalizeLines_append _ _ (by simpa using Ne.symm h2), ih]
        simp

/-- A written cell without carriage returns is normalised to the cell written
without `UseCRLF`. -/
theorem normalizeLines_writeField (comma : Char) (useCRLF : Bool) (cell ys : List Char)
    (h : '\r' ∉ cell) :
    normalizeLines (writeField comma useCRLF cell ++ ys)
      = writeField comma false cell ++ normalizeLines ys := by
  by_cases hneed : fieldNeedsQuotes comma cell = true
  · rw [writeField_quoted comma useCRLF cell hneed, writeField_quoted comma false cell hneed]
    simp only [List.singleton_append, List.cons_append, List.append_assoc, List.nil_append]
    have hquote : ∀ zs : List Char, normalizeLines ('"' :: zs) = '"' :: normalizeLines zs :=
      fun zs => normalizeLines_append ['"'] zs (by decide)
    rw [hquote, normalizeLines_escapeCell useCRLF _ cell h, hquote]
  · have hneed' : fieldNeedsQuotes comma cell = false := by simpa using hneed
    simp only [writeField, hneed', Bool.not_false, if_true]
    exact normalizeLines_append cell ys h

/-- A written cell whose line breaks survive is normalised to the cell written
without `UseCRLF`. -/
theorem normalizeLines_writeField_keeps (comma : Char) (useCRLF : Bool) (cell ys : List Char)
    (h : keepsLineBreaks useCRLF cell = true) :
    normalizeLines (writeField comma useCRLF cell ++ ys)
      = writeField comma false cell ++ normalizeLines ys := by
  cases useCRLF with
  | true =>
    have hcr : '\r' ∉ cell := by
      intro hmem
      have hc : cell.contains '\r' = true := List.elem_eq_true_of_mem hmem
      simp only [keepsLineBreaks, if_true, hc] at h
      cases h
    exact normalizeLines_writeField comma true cell ys hcr
  | false =>
    have hlf : noCRLF cell = true := by simpa [keepsLineBreaks] using h
    by_cases hneed : fieldNeedsQuotes comma cell = true
    · rw [writeField_quoted comma false cell hneed]
      simp only [List.singleton_append, List.cons_append, List.append_assoc, List.nil_append]
      have hquote : ∀ zs : List Char, normalizeLines ('"' :: zs) = '"' :: normalizeLines zs :=
        fun zs => normalizeLines_append ['"'] zs (by decide)
      rw [hquote, normalizeLines_escapeCell_lf '"' (by decide) ys cell hlf, hquote]
    · have hneed' : fieldNeedsQuotes comma cell = false := by simpa using hneed
      have hmem := not_mem_of_fieldNeedsQuotes_false comma cell hneed'
      simp only [writeField, hneed', Bool.not_false, if_true]
      exact normalizeLines_append cell ys (fun hm => (hmem '\r' hm).2.2.1 rfl)

/-- The line terminator is normalised to a line feed. -/
theorem normalizeLines_lineTerminator (useCRLF : Bool) (ys : List Char) :
    normalizeLines (lineTerminator useCRLF ++ ys) = '\n' :: normalizeLines ys := by
  cases useCRLF
  · exact normalizeLines_append ['\n'] ys (by decide)
  · exact normalizeLines_crlf ys

/-- A written row whose cells keep their line breaks is normalised to the row written
without `UseCRLF`. -/
theorem normalizeLines_rowBytes (comma : Char) (hc : comma ≠ '\r') (useCRLF : Bool)
    (ys : List Char) :
    ∀ cells : List String, (∀ cell ∈ cells, keepsLineBreaks useCRLF cell.data = true) →
      normalizeLines (rowBytes comma useCRLF cells ++ ys)
        = rowBytes comma false cells ++ normalizeLines ys
  | [], _ => by
    simpa [rowBytes, List.intercalate] using normalizeLines_lineTerminator useCRLF ys
  | [cell], h => by
    simp only [rowBytes, List.intercalate, List.map_cons, List.map_nil,
      List.intersperse_single, List.flatten_cons, List.flatten_nil, List.append_nil,
      List.append_assoc]
    rw [normalizeLines_writeField_keeps comma useCRLF cell.data _
        (h cell (List.mem_singleton_self _)),
      normalizeLines_lineTerminator]
    rfl
  | cell :: cell2 :: cells, h => by
    have ih := normalizeLines_rowBytes comma hc useCRLF ys (cell2 :: cells)
      (fun c hcm => h c (List.mem_cons_of_mem _ hcm))
    simp only [rowBytes, List.map_cons, intercalate_cons_cons, List.append_assoc] at ih ⊢
    rw [normalizeLines_writeField_keeps comma useCRLF cell.data _
        (h cell (List.mem_cons_self _ _)),
      normalizeLines_append [comma] _ (by simpa using hc.symm), ih]

/-- Written rows whose cells keep their line breaks are normalised to the rows written
without `UseCRLF`. -/
theorem normalizeLines_rows (comma : Char) (hc : comma ≠ '\r') (useCRLF : Bool) :
    ∀ rows : List (List String),
      (∀ row ∈ rows, ∀ cell ∈ row, keepsLineBreaks useCRLF cell.data = true) →
      normalizeLines (rows.map (rowBytes comma useCRLF)).flatten
        = (rows.map (rowBytes comma false)).flatten
  | [], _ => rfl
  | row :: rows, h => by
    simp only [List.map_cons, List.flatten_cons]
    rw [normalizeLines_rowBytes comma hc useCRLF _ row (h row (List.mem_cons_self _ _)),
      normalizeLines_rows comma hc useCRLF rows (fun r hr => h r (List.mem_cons_of_mem _ hr))]

/-- The reader recovers rows of one length, whose cells keep their line breaks and
none of which is a single empty cell, from the document the writer makes of them. -/
theorem readAll_rows (comma : Char) (hv : validDelim comma = true) (useCRLF : Bool) (n : Nat)
    (rows : List (List String))
    (hrows : ∀ row ∈ rows, row.length = n ∧ row ≠ [] ∧ row ≠ [""])
    (hcr : ∀ row ∈ rows, ∀ cell ∈ row, keepsLineBreaks useCRLF cell.data = true) :
    readAll comma (String.mk (rows.map (rowBytes comma useCRLF)).flatten) = Except.ok rows := by
  obtain ⟨-, -, hc⟩ := validDelim_ne comma hv
  simp only [readAll, hv, Bool.not_true, Bool.false_eq_true, if_false]
  rw [normalizeLines_rows comma hc useCRLF rows hcr,
    readChars_rows comma hv n rows [] hrows (by simp)]
  rfl
/-! ## C3 -/

/-- The document of a formatter after construction and calls of `Add`: the header row
and the rows of the records. -/
theorem addAll_document (job : Job) (fields : List String) (f0 : Formatter)
    (h0 : NewFormatter (some job) fields = Except.ok f0) (batches : List (List Record)) :
    ∃ f, addAll f0 batches = some f
      ∧ f.Reader.2.s = String.mk
          (((fields :: batches.flatten.map (rowValues fields)).map
            (rowBytes job.delimiter
              (decide (job.WriteResponse.LineEnding = LineEnding.CarriageReturnLinefeed)))).flatten) := by
  have hr0 : Reachable f0 := Reachable.new (some job) fields f0 h0
  obtain ⟨j, hj, -, -, rfl⟩ := (NewFormatter_ok_iff (some job) fields f0).mp h0
  cases hj
  refine ⟨_, addAll_reachable batches _ hr0 rfl, ?_⟩
  simp [Formatter.Reader, Formatter.sb, Formatter.withRows, newFormatterState, rowBytes,
    rowsBytes, writeFields_zero, string_mk_append, List.map_map, Function.comp_def]

/-- C3, counterexample: under `CarriageReturnLinefeed` the cells `a\nb` and `a\r\nb`
give the same document, so that no reader recovers both, and the reader returns `ab`
for the cell `a\rb`; under `LineFeed` the reader returns `a\nb` for the cell `a\r\nb`,
whose carriage return stands before a line feed; and under `LineFeed` the row of a
single empty cell is a blank line, which the reader skips. -/
theorem C3_round_trip_fails :
    (rowValues ["Id"] recordWithLF = ["a\nb"] ∧ rowValues ["Id"] recordWithCRLF = ["a\r\nb"]
        ∧ ∃ f1 f2, addAll (newFormatterState jobCommaCRLF ["Id"]) [[recordWithLF]] = some f1
          ∧ addAll (newFormatterState jobCommaCRLF ["Id"]) [[recordWithCRLF]] = some f2
          ∧ f1.Reader.2.s = f2.Reader.2.s)
      ∧ (rowValues ["Id"] recordWithCR = ["a\rb"]
        ∧ ∃ f, addAll (newFormatterState jobCommaCRLF ["Id"]) [[recordWithCR]] = some f
          ∧ readAll ',' f.Reader.2.s = Except.ok [["Id"], ["ab"]]
          ∧ readAll ',' f.Reader.2.s ≠ Except.ok [["Id"], rowValues ["Id"] recordWithCR])
      ∧ (∃ f, addAll (newFormatterState jobCommaLF ["Id"]) [[recordWithCRLF]] = some f
          ∧ f.Reader.2.s = "Id\n\"a\r\nb\"\n"
          ∧ readAll ',' f.Reader.2.s = Except.ok [["Id"], ["a\nb"]]
          ∧ readAll ',' f.Reader.2.s ≠ Except.ok [["Id"], rowValues ["Id"] recordWithCRLF])
      ∧ (rowValues ["Id"] recordNoFields = [""]
        ∧ ∃ f, addAll (newFormatterState jobCommaLF ["Id"]) [[recordNoFields]] = some f
          ∧ f.Reader.2.s = "Id\n\n"
          ∧ readAll ',' f.Reader.2.s = Except.ok [["Id"]]
          ∧ readAll ',' f.Reader.2.s ≠ Except.ok [["Id"], rowValues ["Id"] recordNoFields]) := by
  refine ⟨⟨rfl, rfl, _, _, rfl, rfl, rfl⟩, ⟨rfl, _, rfl, rfl, ?_⟩, ⟨_, rfl, rfl, rfl, ?_⟩,
    ⟨rfl, _, rfl, rfl, rfl, ?_⟩⟩
  · intro h
    have h2 : (Except.ok [["Id"], ["ab"]] : Except String (List (List String)))
        = Except.ok [["Id"], rowValues ["Id"] recordWithCR] := h
    have h3 := Except.ok.inj h2
    revert h3
    decide
  · intro h
    have h2 : (Except.ok [["Id"], ["a\nb"]] : Except String (List (List String)))
        = Except.ok [["Id"], rowValues ["Id"] recordWithCRLF] := h
    have h3 := Except.ok.inj h2
    revert h3
    decide
  · intro h
    have h2 : (Except.ok [["Id"]] : Except String (List (List String)))
        = Except.ok [["Id"], rowValues ["Id"] recordNoFields] := h
    have h3 := Except.ok.inj h2
    revert h3
    decide

/-- C3, amended: round trip. For every non-empty schema, every valid delimiter and
every line-ending setting, after a successful `NewFormatter` and any sequence of calls
of `Add` with non-nil records, if the line breaks of every field name and of every
cell written for a record survive (under `CarriageReturnLinefeed` it contains no
carriage return, under any other line ending none of its carriage returns stands
immediately before a line feed) and no row (the header included) is a single empty
cell, then the reader with the same delimiter, run on the document returned by
`Reader()`, yields the header followed by one row per record, each equal, cell for
cell, to the strings written for that record (values with line feeds, delimiters and
quotes included, and under `LineFeed` values with other carriage returns). -/
theorem C3_round_trip (job : Job) (fields : List String) (f0 : Formatter)
    (h0 : NewFormatter (some job) fields = Except.ok f0) (batches : List (List Record))
    (hcr : ∀ row ∈ fields :: batches.flatten.map (rowValues fields),
      ∀ cell ∈ row, keepsLineBreaks
        (decide (job.WriteResponse.LineEnding = LineEnding.CarriageReturnLinefeed))
        cell.data = true)
    (hblank : ∀ row ∈ fields :: batches.flatten.map (rowValues fields), row ≠ [""]) :
    ∃ f, addAll f0 batches = some f
      ∧ readAll job.delimiter f.Reader.2.s
          = Except.ok (fields :: batches.flatten.map (rowValues fields)) := by
  obtain ⟨f, hf, hdoc⟩ := addAll_document job fields f0 h0 batches
  obtain ⟨j, hj, hne, hv, -⟩ := (NewFormatter_ok_iff (some job) fields f0).mp h0
  cases hj
  refine ⟨f, hf, ?_⟩
  rw [hdoc]
  apply readAll_rows job.delimiter hv _ fields.length
  · intro row hrow
    have hlen : row.length = fields.length := by
      rcases List.mem_cons.mp hrow with h | h
      · rw [h]
      · obtain ⟨r, -, rfl⟩ := List.mem_map.mp h
        simp [rowValues_eq_map]
    refine ⟨hlen, ?_, hblank row hrow⟩
    intro hnil
    rw [hnil] at hlen
    exact hne (List.length_eq_zero.mp hlen.symm)
  · exact hcr

/-- Witness of C3: under carriage return plus line feed, a header of two names, a
record with a nil cell and a record with a line feed in a cell; and under line feed a
record with a carriage return that does not stand before a line feed. -/
theorem C3_round_trip_witness :
    (∃ f, addAll (newFormatterState jobCommaCRLF ["Id", "Name"])
          [[recordNilName true], [recordWithLF, recordWithExtra]] = some f
      ∧ f.Reader.2.s = "Id,Name\r\n001,#N/A\r\n\"a\r\nb\",\r\n001,#N/A\r\n"
      ∧ readAll ',' f.Reader.2.s
          = Except.ok [["Id", "Name"], ["001", "#N/A"], ["a\nb", ""], ["001", "#N/A"]])
      ∧ ∃ f, addAll (newFormatterState jobCommaLF ["Id", "Name"]) [[recordWithCR]] = some f
        ∧ f.Reader.2.s = "Id,Name\n\"a\rb\",\n"
        ∧ readAll ',' f.Reader.2.s = Except.ok [["Id", "Name"], ["a\rb", ""]] := by
  obtain ⟨f, hf, hread⟩ := C3_round_trip jobCommaCRLF ["Id", "Name"]
    (newFormatterState jobCommaCRLF ["Id", "Name"]) rfl
    [[recordNilName true], [recordWithLF, recordWithExtra]] (by decide) (by decide)
  have hf' : f = (newFormatterState jobCommaCRLF ["Id", "Name"]).withRows
      [recordNilName true, recordWithLF, recordWithExtra] :=
    Option.some.inj (hf.symm.trans rfl)
  subst hf'
  obtain ⟨g, hg, hreadg⟩ := C3_round_trip jobCommaLF ["Id", "Name"]
    (newFormatterState jobCommaLF ["Id", "Name"]) rfl [[recordWithCR]] (by decide) (by decide)
  have hg' : g = (newFormatterState jobCommaLF ["Id", "Name"]).withRows [recordWithCR] :=
    Option.some.inj (hg.symm.trans rfl)
  subst hg'
  exact ⟨⟨_, rfl, rfl, hread⟩, _, rfl, rfl, hreadg⟩

/-! ## C11 -/

/-- C11: extra fields are ignored. For every formatter and every two records with the
same `InsertNull()` whose `Fields()` maps agree on every name of the schema, `Add` of
the one and `Add` of the other build the same row and have the same outcome, so they
append identical bytes to the buffer; in a reachable state both return without error
and the appended bytes are the row of the record (after the bytes of the buffer of
the writer, which is empty unless an earlier `Add` panicked). -/
theorem C11_extra_fields_ignored (f : Formatter) (r1 r2 : Record)
    (hnull : r1.InsertNull = r2.InsertNull)
    (hagree : ∀ name ∈ f.fields, r1.Fields name = r2.Fields name) :
    rowValues f.fields r1 = rowValues f.fields r2
      ∧ f.Add (some [some r1]) = f.Add (some [some r2])
      ∧ (Reachable f → ∃ f', f.Add (some [some r1]) = AddResult.ok f'
          ∧ f.Add (some [some r2]) = AddResult.ok f'
          ∧ f'.Reader.2.s = f.Reader.2.s ++ f.writer.buf
              ++ String.mk (rowBytes f.writer.Comma f.writer.UseCRLF (rowValues f.fields r1))) := by
  have hrow : rowValues f.fields r1 = rowValues f.fields r2 := by
    rw [rowValues_eq_map, rowValues_eq_map, hnull]
    apply List.map_congr_left
    intro name hname
    rw [hagree name hname]
  have hadd : f.Add (some [some r1]) = f.Add (some [some r2]) := by
    simp only [Formatter.Add, addLoop, hrow]
  refine ⟨hrow, hadd, ?_⟩
  intro hr
  have h1 := Add_some_of_reachable f hr [r1]
  refine ⟨_, h1, hadd ▸ h1, ?_⟩
  simp [Formatter.Reader, Formatter.sb, rowsBytes]

/-- Witness of C11: two records that agree on `Id` and `Name` and differ in their
other keys. -/
theorem C11_extra_fields_ignored_witness :
    rowValues ["Id", "Name"] recordWithExtra = rowValues ["Id", "Name"] recordWithOtherExtra
      ∧ (newFormatterState jobCommaLF ["Id", "Name"]).Add (some [some recordWithExtra])
          = (newFormatterState jobCommaLF ["Id", "Name"]).Add (some [some recordWithOtherExtra])
      ∧ recordWithExtra.Fields "Extra" ≠ recordWithOtherExtra.Fields "Extra" :=
  have h := C11_extra_fields_ignored (newFormatterState jobCommaLF ["Id", "Name"])
    recordWithExtra recordWithOtherExtra rfl (by decide)
  ⟨h.1, h.2.1, by decide⟩

/-! ## Calls of `Add` in reachable states -/

/-- The record loop of `Add` ends normally only when no record is nil. -/
theorem addLoop_done_some (fields : List String) :
    ∀ (records : List (Option Record)) (w w' : Writer),
      addLoop fields w records = LoopResult.done w' → ∃ rs : List Record, records = rs.map some
  | [], _, _, _ => ⟨[], rfl⟩
  | none :: rest, w, w', h => by simp [addLoop] at h
  | some r :: rest, w, w', h => by
    simp only [addLoop] at h
    cases hw : w.Write (rowValues fields r) with
    | error err => simp [hw] at h
    | ok w1 =>
      simp only [hw] at h
      obtain ⟨rs, hrs⟩ := addLoop_done_some fields rest w1 w' h
      exact ⟨r :: rs, by simp [hrs]⟩

/-- A call of `Add` that returns without error was given non-nil records. -/
theorem Add_ok_some (f f' : Formatter) (records : Option (List (Option Record)))
    (h : f.Add records = AddResult.ok f') : ∃ rs : List Record, records = some (rs.map some) := by
  cases records with
  | none => simp [Formatter.Add] at h
  | some l =>
    simp only [Formatter.Add] at h
    cases hl : addLoop f.fields f.writer l with
    | panicked w => simp [hl] at h
    | failed err w => simp [hl] at h
    | done w =>
      obtain ⟨rs, hrs⟩ := addLoop_done_some f.fields l f.writer w hl
      exact ⟨rs, by rw [hrs]⟩

/-- In a reachable state a call of `Add` that returns an error is the call with the nil
collection, and it leaves the formatter as it is. -/
theorem Add_error_of_reachable (f f' : Formatter) (h : Reachable f)
    (records : Option (List (Option Record))) (err : String)
    (hadd : f.Add records = AddResult.error err f') :
    records = none ∧ f' = f ∧ err = "bulk formatter: record interface can not be nil" := by
  cases records with
  | none =>
    simp only [Formatter.Add, AddResult.error.injEq] at hadd
    exact ⟨rfl, hadd.2.symm, hadd.1.symm⟩
  | some l =>
    simp only [Formatter.Add] at hadd
    cases hl : addLoop f.fields f.writer l with
    | panicked w => simp [hl] at hadd
    | failed e w => exact absurd hl ((addLoop_valid f.fields l f.writer h.inv.1).1 e w)
    | done w => simp [hl] at hadd

/-! ## C14 -/

/-- C14, the code at the failing input: the state after `NewFormatter` for the comma,
line feeds and the schema `Id`, `Name` and the call `Add(r, nil)`, which panics on its
second argument with the row of `r` in the buffer of the writer, is reachable, and its
buffer begins with the header row. The next `Add`, of one record, returns without
error and appends two rows, the row of `r` and the row of its own record: the appended
part is not one row per record of that call. -/
theorem C14_add_after_panic_appends_stale_row :
    NewFormatter (some jobCommaLF) ["Id", "Name"]
        = Except.ok (newFormatterState jobCommaLF ["Id", "Name"])
      ∧ (newFormatterState jobCommaLF ["Id", "Name"]).Add
            (some [some (recordNilName false), none])
          = AddResult.panic stateAfterPanic
      ∧ Reachable stateAfterPanic
      ∧ stateAfterPanic.Reader.2.s = "Id,Name\n"
      ∧ ∃ f', stateAfterPanic.Add (some [some (recordNilName true)]) = AddResult.ok f'
          ∧ rowsBytes ',' false ["Id", "Name"] [recordNilName true] = "001,#N/A\n".data
          ∧ f'.Reader.2.s = stateAfterPanic.Reader.2.s ++ "001,\n" ++ "001,#N/A\n"
          ∧ f'.Reader.2.s ≠ stateAfterPanic.Reader.2.s
              ++ String.mk (rowsBytes ',' false ["Id", "Name"] [recordNilName true]) := by
  refine ⟨rfl, rfl, ?_, rfl, _, rfl, rfl, rfl, ?_⟩
  · exact Reachable.addPanic (newFormatterState jobCommaLF ["Id", "Name"])
      (some [some (recordNilName false), none]) stateAfterPanic
      (Reachable.new (some jobCommaLF) ["Id", "Name"] _ rfl) rfl
  · decide

/-! ## C15 -/

/-- C15: `Add` is compositional over concatenation and keeps the input order. In every
reachable state and for every two sequences `xs` and `ys` of non-nil records, `Add` of
`xs` followed by `Add` of `ys` and the single `Add` of `xs ++ ys` all return without
error and end in the same state, whose buffer is the buffer before (with the bytes of
the buffer of the writer, which is empty unless an earlier `Add` panicked) followed by
the rows of `xs` in their order and then the rows of `ys` in their order. -/
theorem C15_add_is_compositional (f : Formatter) (h : Reachable f) (xs ys : List Record) :
    ∃ f1 f2, f.Add (some (xs.map some)) = AddResult.ok f1
      ∧ f1.Add (some (ys.map some)) = AddResult.ok f2
      ∧ f.Add (some ((xs ++ ys).map some)) = AddResult.ok f2
      ∧ f2.Reader.2.s = f.Reader.2.s ++ f.writer.buf
          ++ String.mk ((xs.map (fun r => rowBytes f.writer.Comma f.writer.UseCRLF
                (rowValues f.fields r))).flatten
            ++ (ys.map (fun r => rowBytes f.writer.Comma f.writer.UseCRLF
                (rowValues f.fields r))).flatten) := by
  obtain ⟨h1, hr1⟩ := Add_withRows f h xs
  obtain ⟨h2, -⟩ := Add_withRows (f.withRows xs) hr1 ys
  obtain ⟨h12, -⟩ := Add_withRows f h (xs ++ ys)
  refine ⟨f.withRows xs, (f.withRows xs).withRows ys, h1, h2, ?_, ?_⟩
  · rw [withRows_withRows]
    exact h12
  · rw [withRows_withRows]
    simp [Formatter.Reader, Formatter.sb, Formatter.withRows, rowsBytes]

/-- Witness of C15: one record, then two records, after the header. -/
theorem C15_add_is_compositional_witness :
    Reachable (newFormatterState jobCommaLF ["Id", "Name"])
      ∧ ∃ f1 f2, (newFormatterState jobCommaLF ["Id", "Name"]).Add
            (some [some (recordNilName true)]) = AddResult.ok f1
        ∧ f1.Add (some [some (recordNilName false), some recordWithExtra]) = AddResult.ok f2
        ∧ (newFormatterState jobCommaLF ["Id", "Name"]).Add
            (some [some (recordNilName true), some (recordNilName false), some recordWithExtra])
            = AddResult.ok f2
        ∧ f2.Reader.2.s = "Id,Name\n001,#N/A\n001,\n001,#N/A\n" := by
  have hr : Reachable (newFormatterState jobCommaLF ["Id", "Name"]) :=
    Reachable.new (some jobCommaLF) ["Id", "Name"] _ rfl
  obtain ⟨f1, f2, h1, h2, h12, hs⟩ :=
    C15_add_is_compositional (newFormatterState jobCommaLF ["Id", "Name"]) hr
      [recordNilName true] [recordNilName false, recordWithExtra]
  exact ⟨hr, f1, f2, h1, h2, h12, hs.trans (by decide)⟩

/-! ## C16 -/

/-- C16: for every formatter that `NewFormatter` returned, and in every state reached
from it, `Add` returns no error for a non-nil collection of non-nil records. The
branch of `Add` that returns the error of `Write` is not taken: the only error `Add`
returns is that of the nil check; `Write` fails exactly under an invalid delimiter,
the delimiter of the writer is valid, and under an invalid delimiter the header write
would have made `NewFormatter` fail. -/
theorem C16_add_returns_no_write_error (f : Formatter) (h : Reachable f) :
    (∀ rs : List Record, ∃ f', f.Add (some (rs.map some)) = AddResult.ok f')
      ∧ (∀ (records : Option (List (Option Record))) (err : String) (f' : Formatter),
          f.Add records = AddResult.error err f' → records = none)
      ∧ (∀ (w : Writer) (record : List String),
          (∃ err, w.Write record = Except.error err) ↔ validDelim w.Comma = false)
      ∧ validDelim f.writer.Comma = true
      ∧ (∀ (job : Job) (fields : List String), fields ≠ [] → validDelim job.delimiter = false →
          NewFormatter (some job) fields = Except.error errInvalidDelim) := by
  refine ⟨?_, ?_, ?_, h.inv.1, ?_⟩
  · intro rs
    exact ⟨f.withRows rs, (Add_withRows f h rs).1⟩
  · intro records err f' hadd
    exact (Add_error_of_reachable f f' h records err hadd).1
  · intro w record
    by_cases hd : validDelim w.Comma = true
    · simp [Writer.Write, hd]
    · simp [Writer.Write, hd]
  · intro job fields hf hd
    simp [NewFormatter, hf, Writer.Write, hd]

/-- Witness of C16: the formatter that `NewFormatter` returns for the comma and two
fields. -/
theorem C16_add_returns_no_write_error_witness :
    NewFormatter (some jobCommaLF) ["Id", "Name"]
        = Except.ok (newFormatterState jobCommaLF ["Id", "Name"])
      ∧ (∃ f', (newFormatterState jobCommaLF ["Id", "Name"]).Add
          (some [some (recordNilName true), some recordWithExtra]) = AddResult.ok f')
      ∧ validDelim (newFormatterState jobCommaLF ["Id", "Name"]).writer.Comma = true :=
  have hr : Reachable (newFormatterState jobCommaLF ["Id", "Name"]) :=
    Reachable.new (some jobCommaLF) ["Id", "Name"] _ rfl
  ⟨rfl, (C16_add_returns_no_write_error _ hr).1 [recordNilName true, recordWithExtra],
    (C16_add_returns_no_write_error _ hr).2.2.2.1⟩

end Bulk

namespace Sfdc

/-! ## C12 -/

/-- C12: `HandleError` always returns a non-nil error. Whenever the body is read
successfully the message is exactly the status, a colon and a space, and the body
text, whether or not the body decodes as a structured error; whenever reading the
body fails the message is exactly the status followed by
`: could not read the body with error: ` and the text of the read error. -/
theorem C12_HandleError_message (unmarshal : String → Option JsonValue) (resp : Response) :
    ∃ msg : String, HandleError unmarshal resp = some msg
      ∧ (∀ body : String, ReadAll resp.Body = Except.ok body →
          msg = resp.Status ++ ": " ++ body)
      ∧ (∀ err : String, ReadAll resp.Body = Except.error err →
          msg = resp.Status ++ ": could not read the body with error: " ++ err) := by
  unfold HandleError
  cases hread : ReadAll resp.Body with
  | error err =>
    refine ⟨_, rfl, ?_, ?_⟩
    · intro body h
      cases h
    · intro err' h
      cases h
      rfl
  | ok body =>
    refine ⟨resp.Status ++ ": " ++ body, ?_, ?_, ?_⟩
    · show (match Error.UnmarshalJSON unmarshal body with
        | Except.ok _ => some (resp.Status ++ ": " ++ body)
        | Except.error _ => some (resp.Status ++ ": " ++ body)) = _
      cases Error.UnmarshalJSON unmarshal body <;> rfl
    · intro body' h
      cases h
      rfl
    · intro err h
      cases h

/-- Witness of C12: the two cases of `TestHandleError`, and a body that does not
decode. -/
theorem C12_HandleError_message_witness :
    HandleError unmarshalSample responseBadRequest
        = some "400 Bad Request: \x7b\"message\":\"invalid\"\x7d"
      ∧ HandleError unmarshalSample responseReadError
        = some "500 Internal Server Error: could not read the body with error: unexpected EOF"
      ∧ HandleError unmarshalSample { Status := "404 Not Found", Body := [Except.ok "gone"] }
        = some "404 Not Found: gone" := by
  obtain ⟨m1, h1, hb1, -⟩ := C12_HandleError_message unmarshalSample responseBadRequest
  obtain ⟨m2, h2, -, he2⟩ := C12_HandleError_message unmarshalSample responseReadError
  obtain ⟨m3, h3, hb3, -⟩ := C12_HandleError_message unmarshalSample
    { Status := "404 Not Found", Body := [Except.ok "gone"] }
  refine ⟨?_, ?_, ?_⟩
  · rw [h1, hb1 bodyInvalid rfl]
    rfl
  · rw [h2, he2 "unexpected EOF" rfl]
    rfl
  · rw [h3, hb3 "gone" rfl]
    rfl

/-! ## C13 -/

/-- In a list of members with distinct keys the lookup of a key finds its member. -/
theorem lookup_of_mem {β : Type} :
    ∀ (l : List (String × β)) (k : String) (v : β), (l.map Prod.fst).Nodup → (k, v) ∈ l →
      l.lookup k = some v
  | [], _, _, _, h => by simp at h
  | (k', v') :: l, k, v, hnd, h => by
    simp only [List.map_cons, List.nodup_cons] at hnd
    rcases List.mem_cons.mp h with heq | hmem
    · cases heq
      simp [List.lookup]
    · have hne : k ≠ k' := by
        rintro rfl
        exact hnd.1 (List.mem_map.mpr ⟨(k, v), hmem, rfl⟩)
      have hbeq : (k == k') = false := by simpa using hne
      simp only [List.lookup, hbeq]
      exact lookup_of_mem l k v hnd.2 hmem

/-- The lookup of a key that no member has finds nothing. -/
theorem lookup_of_not_mem {β : Type} :
    ∀ (l : List (String × β)) (k : String), k ∉ l.map Prod.fst → l.lookup k = none
  | [], _, _ => rfl
  | (k', v') :: l, k, h => by
    simp only [List.map_cons, List.mem_cons, not_or] at h
    have hbeq : (k == k') = false := by simpa using h.1
    simp only [List.lookup, hbeq]
    exact lookup_of_not_mem l k h.2

/-- The member of an object under a key, for members that are a rearrangement of a
list with distinct keys. -/
theorem member_of_perm (members target : List (String × JsonValue)) (hperm : members.Perm target)
    (hnd : (target.map Prod.fst).Nodup) (k : String) :
    (∀ v, (k, v) ∈ target → member k members = some v)
      ∧ (k ∉ target.map Prod.fst → member k members = none) := by
  have hrev : members.reverse.Perm target := (List.reverse_perm members).trans hperm
  have hnd' : (members.reverse.map Prod.fst).Nodup :=
    ((hrev.map Prod.fst).nodup_iff).mpr hnd
  constructor
  · intro v hv
    exact lookup_of_mem _ k v hnd' (hrev.mem_iff.mpr hv)
  · intro hk
    apply lookup_of_not_mem
    intro hmem
    exact hk ((hrev.map Prod.fst).mem_iff.mp hmem)

/-- The strings of an array of JSON strings. -/
theorem asStrings_strings : ∀ fs : List String, asStrings (fs.map JsonValue.string) = some fs
  | [] => rfl
  | s :: fs => by simp [asStrings, asString, asStrings_strings fs]

/-- C13: `Error.UnmarshalJSON` accepts both code keys and normalises them to the same
result. For every code `c`, message `m` and list of field names `fs`, decoding a
payload that denotes the JSON object with the members `statusCode` = `c`, `message` =
`m` and `fields` = `fs`, in any order of the keys, succeeds and yields the error with
`ErrorCode` `c`, `Message` `m` and `Fields` `fs`; so does decoding the object with the
key `errorCode` in place of `statusCode`. -/
theorem C13_both_code_keys_decode (unmarshal : String → Option JsonValue) (data : String)
    (members : List (String × JsonValue)) (c m : String) (fs : List String)
    (hparse : unmarshal data = some (JsonValue.object members))
    (hmembers :
      members.Perm [("statusCode", JsonValue.string c), ("message", JsonValue.string m),
          ("fields", JsonValue.array (fs.map JsonValue.string))]
        ∨ members.Perm [("errorCode", JsonValue.string c), ("message", JsonValue.string m),
          ("fields", JsonValue.array (fs.map JsonValue.string))]) :
    Error.UnmarshalJSON unmarshal data
      = Except.ok { ErrorCode := c, Message := m, Fields := fs } := by
  rcases hmembers with hperm | hperm
  · have hmsg := (member_of_perm members _ hperm (by simp) "message").1
      (JsonValue.string m) (by simp)
    have hfields := (member_of_perm members _ hperm (by simp) "fields").1
      (JsonValue.array (fs.map JsonValue.string)) (by simp)
    have hcode := (member_of_perm members _ hperm (by simp) "statusCode").1
      (JsonValue.string c) (by simp)
    simp [Error.UnmarshalJSON, hparse, hmsg, hfields, hcode, asString, asStrings_strings]
  · have hmsg := (member_of_perm members _ hperm (by simp) "message").1
      (JsonValue.string m) (by simp)
    have hfields := (member_of_perm members _ hperm (by simp) "fields").1
      (JsonValue.array (fs.map JsonValue.string)) (by simp)
    have hcode := (member_of_perm members _ hperm (by simp) "errorCode").1
      (JsonValue.string c) (by simp)
    have hnone := (member_of_perm members _ hperm (by simp) "statusCode").2 (by simp)
    simp [Error.UnmarshalJSON, hparse, hmsg, hfields, hcode, hnone, asString, asStrings_strings]

/-- Witness of C13: the two payloads of the decode example, the second with the key
`errorCode` and the keys in another order. -/
theorem C13_both_code_keys_decode_witness :
    Error.UnmarshalJSON unmarshalExamples payloadStatusCode
        = Except.ok { ErrorCode := "MALFORMED_ID", Message := "bad id", Fields := ["Id"] }
      ∧ Error.UnmarshalJSON unmarshalExamples payloadErrorCode
        = Except.ok { ErrorCode := "MALFORMED_ID", Message := "bad id", Fields := ["Id"] } :=
  ⟨C13_both_code_keys_decode unmarshalExamples payloadStatusCode
      [("statusCode", JsonValue.string "MALFORMED_ID"), ("message", JsonValue.string "bad id"),
        ("fields", JsonValue.array [JsonValue.string "Id"])]
      "MALFORMED_ID" "bad id" ["Id"] rfl (Or.inl (List.Perm.refl _)),
    C13_both_code_keys_decode unmarshalExamples payloadErrorCode
      [("fields", JsonValue.array [JsonValue.string "Id"]), ("message", JsonValue.string "bad id"),
        ("errorCode", JsonValue.string "MALFORMED_ID")]
      "MALFORMED_ID" "bad id" ["Id"] rfl
      (Or.inr (by
        show List.Perm [("fields", JsonValue.array [JsonValue.string "Id"]),
            ("message", JsonValue.string "bad id"), ("errorCode", JsonValue.string "MALFORMED_ID")]
          [("errorCode", JsonValue.string "MALFORMED_ID"), ("message", JsonValue.string "bad id"),
            ("fields", JsonValue.array [JsonValue.string "Id"])]
        exact ((List.Perm.swap _ _ _).trans ((List.Perm.swap _ _ _).cons _)).trans
          (List.Perm.swap _ _ _)))⟩

end Sfdc
